import Mathlib

/-!
Paddle-Lite: kernel dispatch, kernel identity and the roll baseline.

A shallow embedding of

* `lite/core/kernel.h`: `KernelBase::Launch` with the setters of `KernelBase`, the `Run`
  of `KernelLite`, `SerializedKernelType` and `key_with_alias`;
* `lite/tests/kernels/roll_compute_test.cc`: `ShiftAlongDim` and
  `RollComputeTester::RunBaseline` / `PrepareData`.

`Launch` is modelled by explicit state passing.  What `Launch` itself does (which
virtual method it calls, which arena it resets, which profiler call it issues) is
recorded, in order, in a trace of `Event`s.  A buffer behind a `T*` is the function
from offsets to cells; `int64_t` values are integers, and the `int` counters of
`ShiftAlongDim` are integers narrowed to 32 bits where a product is stored in them.
-/

namespace paddle.lite

/-! ## Build configuration and collaborators of `kernel.h` -/

/-- The preprocessor switches that `KernelBase::Launch` tests. -/
structure BuildConfig where
  LITE_WITH_PROFILE : Bool
  LITE_WITH_X86 : Bool
  LITE_WITH_METAL : Bool
  deriving DecidableEq, Repr

/-- The arenas `WorkSpace::Global_Host()`, `Global_X86()` and `Global_METAL()`. -/
inductive Arena where
  | Host
  | X86
  | METAL
  deriving DecidableEq, Repr

/-- The two values of `profile::Type` that `Launch` passes to the profiler. -/
inductive ProfileType where
  | kCreate
  | kDispatch
  deriving DecidableEq, Repr

/-- An opaque handle standing for a `KernelContext` object. -/
abbrev KernelContext := Nat

/-- An opaque handle standing for a `profile::Profiler` object. -/
abbrev Profiler := Nat

/-- An opaque handle standing for the type-erased `operators::param_t` content. -/
abbrev ParamBlock := Nat

/-- What `Launch` does, one entry per call it makes.  The profiler calls carry the
arguments `Launch` passes: the type, `profile_id_` and `ctx_.get()`. -/
inductive Event where
  | PrepareForRun
  | ReInitWhenNeeded
  | AllocReset (a : Arena)
  | StopTiming (t : ProfileType) (id : Int) (ctx : Option KernelContext)
  | StartTiming (t : ProfileType) (id : Int) (ctx : Option KernelContext)
  | Run
  | GetOpCharacter (id : Int)
  | SetProfileRuntimeKernelInfo
  deriving DecidableEq, Repr

/-- The data members of `KernelBase`, with the state `σ` that a deriving kernel class
adds.  A null pointer is `none`. -/
structure KernelBase (σ : Type) where
  ctx_ : Option KernelContext
  param_ : Option ParamBlock
  op_type_ : String
  alias_ : String
  is_first_epoch_ : Bool
  profiler_ : Option Profiler
  profile_id_ : Int
  is_kernel_test_ : Bool
  derived : σ

/-- The member initialisers of `KernelBase`: `ctx_{nullptr}`, `op_type_{}`, `alias_{}`,
`is_first_epoch_{true}`, `profiler_{nullptr}`, `profile_id_{-1}`,
`is_kernel_test_{true}`. -/
def KernelBase.fresh {σ : Type} (d : σ) : KernelBase σ :=
  { ctx_ := none, param_ := none, op_type_ := "", alias_ := "",
    is_first_epoch_ := true, profiler_ := none, profile_id_ := -1,
    is_kernel_test_ := true, derived := d }

/-- The setter `SetContext(std::move(ctx))`. -/
def KernelBase.SetContext {σ : Type} (k : KernelBase σ) (ctx : KernelContext) :
    KernelBase σ :=
  { k with ctx_ := some ctx }

/-- The setter `SetParam(param)`. -/
def KernelBase.SetParam {σ : Type} (k : KernelBase σ) (p : ParamBlock) : KernelBase σ :=
  { k with param_ := some p }

/-- The setter `SetProfiler(profiler, id)`; the pointer handed in may be null. -/
def KernelBase.SetProfiler {σ : Type} (k : KernelBase σ) (profiler : Option Profiler)
    (id : Int) : KernelBase σ :=
  { k with profiler_ := profiler, profile_id_ := id }

/-- The setter `SetIsKernelTest(is_kernel_test)`. -/
def KernelBase.SetIsKernelTest {σ : Type} (k : KernelBase σ) (is_kernel_test : Bool) :
    KernelBase σ :=
  { k with is_kernel_test_ := is_kernel_test }

/-- The setter `set_op_type(type)`. -/
def KernelBase.set_op_type {σ : Type} (k : KernelBase σ) (type : String) : KernelBase σ :=
  { k with op_type_ := type }

/-- The setter `set_alias(x)`. -/
def KernelBase.set_alias {σ : Type} (k : KernelBase σ) (x : String) : KernelBase σ :=
  { k with alias_ := x }

/-- A virtual method of a kernel: it works on the whole object and either returns,
leaving the object as it made it, or fails a `CHECK` with the given message, which
aborts the process.  The members of `KernelBase` are `protected`, so a method of a
deriving class may write any of them. -/
abbrev Method (σ : Type) := KernelBase σ → Except String (KernelBase σ)

/-- The virtual methods that `Launch` calls. -/
structure Methods (σ : Type) where
  PrepareForRun : Method σ
  ReInitWhenNeeded : Method σ
  Run : Method σ
  SetProfileRuntimeKernelInfo : Method σ

/-- The empty body that `KernelBase` gives `PrepareForRun` and `ReInitWhenNeeded`. -/
def emptyBody {σ : Type} : Method σ := fun k => .ok k

/-- The `Run` of `KernelLite`: a `CHECK(false)` with the message `Not Implemented`. -/
def KernelLite.Run {σ : Type} : Method σ := fun _ => .error "Not Implemented"

/-- A `KernelLite` instance that does not override `Run`: the other three virtual
methods are whatever the deriving class makes them. -/
def KernelLite.methods {σ : Type} (prepare reinit info : Method σ) : Methods σ :=
  { PrepareForRun := prepare, ReInitWhenNeeded := reinit, Run := KernelLite.Run,
    SetProfileRuntimeKernelInfo := info }

/-- How a call ended: it returned, a `CHECK` failed and aborted the process, or a null
pointer was dereferenced. -/
inductive Status where
  | returned
  | aborted (msg : String)
  | nullDeref
  deriving DecidableEq, Repr

/-- The object, the trace and the status at the end of a call. -/
structure Exec (σ : Type) where
  kernel : KernelBase σ
  trace : List Event
  status : Status

/-- The rest of a function body, run on the object as it is by then; the trace of the
result lists what the rest does. -/
abbrev Cont (σ : Type) := KernelBase σ → Exec σ

/-- The result of a step that did `e` and then went on to end as `x`. -/
def Exec.after {σ : Type} (e : Event) (x : Exec σ) : Exec σ :=
  { x with trace := e :: x.trace }

/-- A call of a virtual method: it is recorded, then it returns and the body goes on
with the object as the method left it, or it aborts. -/
def call {σ : Type} (e : Event) (m : Method σ) (rest : Cont σ) : Cont σ := fun k =>
  match m k with
  | .ok k' => (rest k').after e
  | .error msg => { kernel := k, trace := [e], status := .aborted msg }

/-- A call into a collaborator (`WorkSpace`), which returns. -/
def emit {σ : Type} (e : Event) (rest : Cont σ) : Cont σ := fun k =>
  (rest k).after e

/-- A call `profiler_->f(...)`: through a null `profiler_` it is a null dereference. -/
def viaProfiler {σ : Type} (e : KernelBase σ → Event) (rest : Cont σ) : Cont σ :=
  fun k =>
    match k.profiler_ with
    | some _ => (rest k).after (e k)
    | none => { kernel := k, trace := [], status := .nullDeref }

/-- The statement `is_first_epoch_ = false;`. -/
def clearFirstEpoch {σ : Type} (rest : Cont σ) : Cont σ := fun k =>
  rest { k with is_first_epoch_ := false }

/-- A block that is compiled in, or entered, only when `c` holds of the object. -/
def guarded {σ : Type} (c : KernelBase σ → Bool) (block : Cont σ → Cont σ)
    (rest : Cont σ) : Cont σ := fun k =>
  if c k then block rest k else rest k

/-- The end of the function body. -/
def finish {σ : Type} : Cont σ := fun k =>
  { kernel := k, trace := [], status := .returned }

/-- The body of `KernelBase::Launch`, statement by statement. -/
def Launch {σ : Type} (cfg : BuildConfig) (vt : Methods σ) : Cont σ :=
  -- if (is_first_epoch_) { PrepareForRun(); is_first_epoch_ = false; }
  guarded (fun k => k.is_first_epoch_)
    (fun rest => call .PrepareForRun vt.PrepareForRun (clearFirstEpoch rest)) <|
  -- ReInitWhenNeeded();
  call .ReInitWhenNeeded vt.ReInitWhenNeeded <|
  -- WorkSpace::Global_Host().AllocReset(); then the X86 and METAL arenas
  emit (.AllocReset .Host) <|
  guarded (fun _ => cfg.LITE_WITH_X86) (emit (.AllocReset .X86)) <|
  guarded (fun _ => cfg.LITE_WITH_METAL) (emit (.AllocReset .METAL)) <|
  -- #ifdef LITE_WITH_PROFILE: if (!is_kernel_test_) { StopTiming; StartTiming; }
  guarded (fun k => cfg.LITE_WITH_PROFILE && !k.is_kernel_test_)
    (fun rest =>
      viaProfiler (fun k => .StopTiming .kCreate k.profile_id_ k.ctx_) <|
      viaProfiler (fun k => .StartTiming .kDispatch k.profile_id_ k.ctx_) rest) <|
  -- Run();
  call .Run vt.Run <|
  -- #ifdef LITE_WITH_PROFILE: if (!is_kernel_test_) { ... }
  guarded (fun k => cfg.LITE_WITH_PROFILE && !k.is_kernel_test_)
    (fun rest =>
      viaProfiler (fun k => .GetOpCharacter k.profile_id_) <|
      call .SetProfileRuntimeKernelInfo vt.SetProfileRuntimeKernelInfo <|
      viaProfiler (fun k => .StopTiming .kDispatch k.profile_id_ k.ctx_) rest) <|
  finish

/-- The first `n` of a series of `Launch` calls on one object: the traces are joined,
and the series ends with the first call that does not return. -/
def LaunchN {σ : Type} (cfg : BuildConfig) (vt : Methods σ) :
    Nat → KernelBase σ → Exec σ
  | 0, k => { kernel := k, trace := [], status := .returned }
  | n + 1, k =>
    let x := LaunchN cfg vt n k
    match x.status with
    | .returned =>
      let y := Launch cfg vt x.kernel
      { kernel := y.kernel, trace := x.trace ++ y.trace, status := y.status }
    | _ => x

/-- Whether this `Launch` enters the two profiling blocks. -/
def profiled {σ : Type} (cfg : BuildConfig) (k : KernelBase σ) : Bool :=
  cfg.LITE_WITH_PROFILE && !k.is_kernel_test_

/-- The object after the first block of `Launch`,
`if (is_first_epoch_) { PrepareForRun(); is_first_epoch_ = false; }`, or the message of
the `CHECK` that `PrepareForRun` failed. -/
def firstEpochBlock {σ : Type} (vt : Methods σ) (k : KernelBase σ) :
    Except String (KernelBase σ) :=
  if k.is_first_epoch_ then
    match vt.PrepareForRun k with
    | .ok k' => .ok { k' with is_first_epoch_ := false }
    | .error msg => .error msg
  else .ok k

/-- The calls of a `Launch` up to the arena resets, where `k` is the object at entry: a
reading aid for the theorems, assembled from the statements of `Launch` in their
order. -/
def resetTrace {σ : Type} (cfg : BuildConfig) (k : KernelBase σ) : List Event :=
  (if k.is_first_epoch_ then [.PrepareForRun] else []) ++
  [.ReInitWhenNeeded, .AllocReset .Host] ++
  (if cfg.LITE_WITH_X86 then [.AllocReset .X86] else []) ++
  (if cfg.LITE_WITH_METAL then [.AllocReset .METAL] else [])

/-- The calls of a `Launch` up to the call of `Run`, where `k2` is the object that
`ReInitWhenNeeded` left. -/
def headTrace {σ : Type} (cfg : BuildConfig) (k k2 : KernelBase σ) : List Event :=
  resetTrace cfg k ++
  (if profiled cfg k2 then
    [.StopTiming .kCreate k2.profile_id_ k2.ctx_,
     .StartTiming .kDispatch k2.profile_id_ k2.ctx_]
   else [])

/-- The calls of a returning `Launch` after the call of `Run`, where `k3` is the object
that `Run` left and `k4` the object at the end. -/
def tailTrace {σ : Type} (cfg : BuildConfig) (k3 k4 : KernelBase σ) : List Event :=
  if profiled cfg k3 then
    [.GetOpCharacter k3.profile_id_, .SetProfileRuntimeKernelInfo,
     .StopTiming .kDispatch k4.profile_id_ k4.ctx_]
  else []

/-- The result of `Launch` written out by cases on what the virtual methods return, a
reading aid for the theorems: `Launch_eq_launchByCases` shows that `Launch` computes
it. -/
def launchByCases {σ : Type} (cfg : BuildConfig) (vt : Methods σ) (k : KernelBase σ) :
    Exec σ :=
  match firstEpochBlock vt k with
  | .error msg => { kernel := k, trace := [.PrepareForRun], status := .aborted msg }
  | .ok k1 =>
    match vt.ReInitWhenNeeded k1 with
    | .error msg =>
      { kernel := k1,
        trace := (if k.is_first_epoch_ then [.PrepareForRun] else []) ++ [.ReInitWhenNeeded],
        status := .aborted msg }
    | .ok k2 =>
      if profiled cfg k2 = true ∧ k2.profiler_ = none then
        { kernel := k2, trace := resetTrace cfg k, status := .nullDeref }
      else
        match vt.Run k2 with
        | .error msg =>
          { kernel := k2, trace := headTrace cfg k k2 ++ [.Run], status := .aborted msg }
        | .ok k3 =>
          if profiled cfg k3 = true then
            if k3.profiler_ = none then
              { kernel := k3, trace := headTrace cfg k k2 ++ [.Run], status := .nullDeref }
            else
              match vt.SetProfileRuntimeKernelInfo k3 with
              | .error msg =>
                { kernel := k3,
                  trace := headTrace cfg k k2 ++
                    [.Run, .GetOpCharacter k3.profile_id_, .SetProfileRuntimeKernelInfo],
                  status := .aborted msg }
              | .ok k4 =>
                if k4.profiler_ = none then
                  { kernel := k4,
                    trace := headTrace cfg k k2 ++
                      [.Run, .GetOpCharacter k3.profile_id_, .SetProfileRuntimeKernelInfo],
                    status := .nullDeref }
                else
                  { kernel := k4,
                    trace := headTrace cfg k k2 ++ [.Run] ++ tailTrace cfg k3 k4,
                    status := .returned }
          else
            { kernel := k3, trace := headTrace cfg k k2 ++ [.Run], status := .returned }

/-- The object `k4` is what the virtual methods of one `Launch`, run in the order of
`Launch`, make of the object `k`: `k2` is what `ReInitWhenNeeded` leaves and `k3` what
`Run` leaves. -/
def LaunchRan {σ : Type} (cfg : BuildConfig) (vt : Methods σ) (k k2 k3 k4 : KernelBase σ) :
    Prop :=
  ∃ k1, firstEpochBlock vt k = .ok k1 ∧ vt.ReInitWhenNeeded k1 = .ok k2 ∧
    vt.Run k2 = .ok k3 ∧
    ((profiled cfg k3 = false ∧ k4 = k3) ∨
      (profiled cfg k3 = true ∧ vt.SetProfileRuntimeKernelInfo k3 = .ok k4))

/-- A virtual method that returns, in whatever state it is called. -/
def Returns {σ : Type} (m : Method σ) : Prop := ∀ k, ∃ k', m k = .ok k'

/-- A virtual method that does not set `is_first_epoch_`: called with the flag false, it
leaves the flag false. -/
def KeepsFirstEpochCleared {σ : Type} (m : Method σ) : Prop :=
  ∀ k k', m k = .ok k' → k.is_first_epoch_ = false → k'.is_first_epoch_ = false

/-- A virtual method that leaves `profiler_` and `is_kernel_test_` as it finds them. -/
def KeepsProfiling {σ : Type} (m : Method σ) : Prop :=
  ∀ k k', m k = .ok k' →
    k'.profiler_ = k.profiler_ ∧ k'.is_kernel_test_ = k.is_kernel_test_

/-- A kernel class whose state counts the calls of its `Run`; the other virtual methods
are the empty bodies of `KernelBase`. -/
def countingKernel : Methods Nat :=
  { PrepareForRun := emptyBody, ReInitWhenNeeded := emptyBody,
    Run := fun k => .ok { k with derived := k.derived + 1 },
    SetProfileRuntimeKernelInfo := emptyBody }

/-- A kernel class like `countingKernel` whose `Run` also sets the protected member
`is_first_epoch_`. -/
def rearmingKernel : Methods Nat :=
  { PrepareForRun := emptyBody, ReInitWhenNeeded := emptyBody,
    Run := fun k => .ok { k with derived := k.derived + 1, is_first_epoch_ := true },
    SetProfileRuntimeKernelInfo := emptyBody }

/-- A kernel class like `countingKernel` whose `Run` fails a `CHECK` once its state has
reached `2`. -/
def checkedKernel : Methods Nat :=
  { PrepareForRun := emptyBody, ReInitWhenNeeded := emptyBody,
    Run := fun k => if k.derived < 2 then .ok { k with derived := k.derived + 1 }
      else .error "Check failed",
    SetProfileRuntimeKernelInfo := emptyBody }

/-- A build with none of the three switches. -/
def plainBuild : BuildConfig :=
  { LITE_WITH_PROFILE := false, LITE_WITH_X86 := false, LITE_WITH_METAL := false }

/-- A build with `LITE_WITH_PROFILE` and `LITE_WITH_X86`. -/
def profileBuild : BuildConfig :=
  { LITE_WITH_PROFILE := true, LITE_WITH_X86 := true, LITE_WITH_METAL := false }

/-! ## `roll_compute_test.cc`: `ShiftAlongDim` and the roll baseline -/

/-- The sizes of a tensor (`DDim`), `int64_t` each. -/
abbrev DDim := List Int

/-- The size `input_dim[i]`, for an index inside the shape. -/
def DDim.at (input_dim : DDim) (i : Int) : Int := input_dim.getD i.toNat 0

/-- The number of elements, `production()`. -/
def DDim.production (input_dim : DDim) : Int := input_dim.prod

/-- The conversion of an `int64_t` value to `int`: the value modulo `2^32`, taken in
`[-2^31, 2^31)`. -/
def toInt32 (v : Int) : Int := (v + 2147483648) % 4294967296 - 2147483648

/-- The memory behind a `T*`: the cell at each offset. -/
abbrev Buffer (T : Type) := Nat → T

/-- The read `data[i]`. -/
def Buffer.read {T : Type} (data : Buffer T) (i : Int) : T := data i.toNat

/-- The write `data[i] = v`. -/
def Buffer.write {T : Type} (data : Buffer T) (i : Int) (v : T) : Buffer T :=
  fun x => if x = i.toNat then v else data x

/-- The loop `for (c = lo; c < hi; c++) body(c)`, the state threaded through the passes. -/
def forLoop {σ : Type} (lo hi : Int) (body : Int → σ → σ) (s : σ) : σ :=
  (List.range (hi - lo).toNat).foldl (fun s (t : Nat) => body (lo + (t : Int)) s) s

/-- One pass of the outer loop of `ShiftAlongDim`, on the buffer and the vector `head`;
`n` is `input_dim[dim]`. -/
def ShiftAlongDim.pass {T : Type} (n shift slice_width head_size : Int) (i : Int)
    (st : Buffer T × Buffer T) : Buffer T × Buffer T :=
  -- for (auto j = 0; j < head_size; j++) head[j] = data[i * n * slice_width + j];
  let head := forLoop 0 head_size (fun j head =>
    head.write j (st.1.read (i * n * slice_width + j))) st.2
  -- for (auto j = n - shift; j < n; j++) { auto dst_pos = j - n + shift; ... }
  let data := forLoop (n - shift) n (fun j data =>
    let dst_pos := j - n + shift
    -- for (auto k = 0; k < slice_width; k++)
    --   data[(i * n + dst_pos) * slice_width + k] = data[(i * n + j) * slice_width + k];
    forLoop 0 slice_width (fun k data =>
      data.write ((i * n + dst_pos) * slice_width + k)
        (data.read ((i * n + j) * slice_width + k))) data) st.1
  -- for (auto j = 0; j < head_size; j++) data[(i * n + shift) * slice_width + j] = head[j];
  let data := forLoop 0 head_size (fun j data =>
    data.write ((i * n + shift) * slice_width + j) (head.read j)) data
  (data, head)

/-- The body of `ShiftAlongDim`.  The counters declared `auto x = 1` and `auto j = 0`
are `int`s: a product assigned to them is converted by `toInt32`.  The result is `none`
where the C++ has no defined one: `input_dim[dim]` outside the shape, `head.resize` of a
negative count, and `j++` past the largest `int`.  The offsets computed are
non-negative whenever the sizes are. -/
def ShiftAlongDim {T : Type} [Inhabited T] (data : Buffer T) (input_dim : DDim)
    (dim shift : Int) : Option (Buffer T) :=
  -- if (dim < 0) dim += input_dim.size();
  let dim := if dim < 0 then dim + input_dim.length else dim
  if dim < 0 ∨ (input_dim.length : Int) ≤ dim then none else
  -- if (input_dim[dim] == 0) return;
  if input_dim.at dim = 0 then some data else
  -- shift = shift % input_dim[dim]; if (shift < 0) shift += input_dim[dim];
  let shift := Int.tmod shift (input_dim.at dim)
  let shift := if shift < 0 then shift + input_dim.at dim else shift
  -- auto outer_loops = 1; for (auto i = 0; i < dim; i++) outer_loops *= input_dim[i];
  let outer_loops := forLoop 0 dim (fun i acc => toInt32 (acc * input_dim.at i)) 1
  -- auto slice_width = 1; for (auto i = dim + 1; i < input_dim.size(); i++) ...
  let slice_width :=
    forLoop (dim + 1) input_dim.length (fun i acc => toInt32 (acc * input_dim.at i)) 1
  -- if (shift == 0) return;
  if shift = 0 then some data else
  -- std::vector<T> head; auto head_size = slice_width * (n - shift); head.resize(head_size);
  let head_size := slice_width * (input_dim.at dim - shift)
  if head_size < 0 then none else
  if 0 < outer_loops ∧ 2147483648 ≤ head_size then none else
  let head : Buffer T := fun _ => default
  -- for (auto i = 0; i < outer_loops; i++) { ... }
  some (forLoop 0 outer_loops
    (ShiftAlongDim.pass (input_dim.at dim) shift slice_width head_size) (data, head)).1

/-- A tensor: its sizes and its buffer. -/
structure Tensor (T : Type) where
  dims : DDim
  data : Buffer T

/-- The number of elements, `numel()`. -/
def Tensor.numel {T : Type} (t : Tensor T) : Int := t.dims.production

/-- The two tensors that the roll test keeps in its `Scope`: `"X"`, and
`"ShiftsTensor"` when it was set. -/
structure Scope (T : Type) where
  X : Tensor T
  ShiftsTensor : Option (Tensor Int)

/-- The data members of `RollComputeTester` that the baseline reads. -/
structure RollComputeTester where
  shifts_tensor_ : String
  x_dims_ : DDim
  axis_ : List Int
  shifts_ : List Int

/-- The constructor of `RollComputeTester`. -/
def RollComputeTester.new (x_dims : DDim) (axis shifts : List Int)
    (use_shifts_tensor : Bool) : RollComputeTester :=
  { shifts_tensor_ := if use_shifts_tensor then "ShiftsTensor" else "",
    x_dims_ := x_dims, axis_ := axis, shifts_ := shifts }

/-- The method `PrepareData`, with the random fill of `X` as a parameter: `X` gets `x_dims_` and
that fill; with a shifts tensor in use, `"ShiftsTensor"` gets `axis_.size()` for its one
size and `axis_.data()` for its content. -/
def RollComputeTester.PrepareData {T : Type} (t : RollComputeTester) (x_data : Buffer T) :
    Scope T :=
  { X := { dims := t.x_dims_, data := x_data },
    ShiftsTensor :=
      if t.shifts_tensor_ ≠ "" then
        some { dims := [(t.axis_.length : Int)], data := fun i => t.axis_.getD i 0 }
      else none }

/-- The method `RunBaseline`: the tester (whose `axis_` it may extend) and the tensor `Out`.  The
result is `none` where a null tensor pointer is dereferenced or `axis_[i]`,
`shifts_[i]` is read past the end of the vector. -/
def RollComputeTester.RunBaseline {T : Type} [Inhabited T] (t : RollComputeTester)
    (scope : Scope T) : Option (RollComputeTester × Tensor T) :=
  let x := scope.X
  -- std::vector<int64_t> shifts; filled from the tensor, or shifts = shifts_;
  let shifts : Option (List Int) :=
    if t.shifts_tensor_ ≠ "" then
      scope.ShiftsTensor.map (fun shift =>
        forLoop 0 shift.numel (fun i shifts => shifts ++ [shift.data.read i]) [])
    else some t.shifts_
  match shifts with
  | none => none
  | some shifts =>
    -- int nums = shifts.size(); DDim input_dim = x->dims(); int input_size = input_dim.size();
    let nums : Int := shifts.length
    let input_dim := x.dims
    let input_size : Int := input_dim.length
    -- if (axis_.size() == 0) { axis_.push_back(0l); input_dim = DDim({input_size}); }
    let reshaped : RollComputeTester × DDim :=
      if t.axis_.length = 0 then ({ t with axis_ := t.axis_ ++ [0] }, [input_size])
      else (t, input_dim)
    let t := reshaped.1
    let input_dim := reshaped.2
    -- out->CopyDataFrom(*x); auto* out_data = out->mutable_data<float>();
    let out_data := x.data
    -- for (size_t i = 0; i < nums; i++) ShiftAlongDim(out_data, input_dim, axis_[i], shifts_[i]);
    let out_data := forLoop 0 nums (fun i (out_data : Option (Buffer T)) =>
      match out_data, t.axis_.get? i.toNat, t.shifts_.get? i.toNat with
      | some out_data, some a, some s => ShiftAlongDim out_data input_dim a s
      | _, _, _ => none) (some out_data)
    out_data.map (fun d => (t, { dims := x.dims, data := d }))

/-! ### Reading a buffer along one axis of its shape -/

/-- The axis that `ShiftAlongDim` works on: a negative `dim` counts from the end. -/
def DDim.axis (input_dim : DDim) (dim : Int) : Nat :=
  (if dim < 0 then dim + input_dim.length else dim).toNat

/-- The number of index tuples over the axes in front of axis `a`. -/
def DDim.outer (input_dim : DDim) (a : Nat) : Int := (input_dim.take a).prod

/-- The number of index tuples over the axes behind axis `a`. -/
def DDim.inner (input_dim : DDim) (a : Nat) : Int := (input_dim.drop (a + 1)).prod

/-- The row-major offset of the element at index `j` along axis `a`, with outer index
`o` and inner index `k`. -/
def DDim.offset (input_dim : DDim) (a : Nat) (o j k : Int) : Nat :=
  ((o * input_dim.at a + j) * input_dim.inner a + k).toNat

/-- The buffer `out` is `data` rolled by `shift` along axis `dim` of the shape: the
value at index `(o, j, k)` of `data` is at index `(o, (j + shift) mod n, k)` of `out`,
`mod` being the non-negative remainder. -/
def IsRoll {T : Type} (input_dim : DDim) (dim shift : Int) (data out : Buffer T) : Prop :=
  ∀ o j k : Nat,
    (o : Int) < input_dim.outer (input_dim.axis dim) →
    (j : Int) < input_dim.at (input_dim.axis dim) →
    (k : Int) < input_dim.inner (input_dim.axis dim) →
    out (input_dim.offset (input_dim.axis dim) o
        (((j : Int) + shift) % input_dim.at (input_dim.axis dim)) k)
      = data (input_dim.offset (input_dim.axis dim) o j k)

/-- The buffer whose cell at offset `i` holds `i`. -/
def iota : Buffer Nat := fun i => i

/-- The first `n` cells of a buffer. -/
def Buffer.firstCells {T : Type} (data : Buffer T) (n : Nat) : List T :=
  (List.range n).map data

/-! ## The kernel identity string

`kernel.h` declares `SerializeKernelType` and `ParseKernelType`; their bodies are in
`kernel.cc`.  The specification gives the format: the operator type, `/`, the alias,
and an encoding of the placement, parsed back by splitting on the same delimiter. -/

/-- Modelled from the spec: `Place`, the (target, precision, layout) triple of
`paddle_place.h`, each enumeration by its integer value. -/
structure Place where
  target : Nat
  precision : Nat
  layout : Nat
  deriving DecidableEq, Repr

/-- Modelled from the spec: the encoding of one enumeration value in the identity
string, taken to be its decimal numeral (the specification says only that the
placement is encoded and decoded). -/
def encodeEnum (n : Nat) : List Char :=
  if n = 0 then ['0'] else (Nat.digits 10 n).reverse.map Nat.digitChar

/-- Modelled from the spec: the value of a decimal digit character. -/
def decodeDigit (c : Char) : Option Nat :=
  if 48 ≤ c.toNat ∧ c.toNat ≤ 57 then some (c.toNat - 48) else none

/-- Modelled from the spec: the decoding of one enumeration value, a non-empty string
of decimal digits. -/
def decodeEnum (cs : List Char) : Option Nat :=
  if cs = [] then none
  else cs.foldlM (fun acc c => (decodeDigit c).map (fun d => 10 * acc + d)) 0

/-- Modelled from the spec: the fields of a string between the delimiters `/`. -/
def splitSlash : List Char → List (List Char)
  | [] => [[]]
  | c :: cs =>
    if c = '/' then [] :: splitSlash cs
    else
      match splitSlash cs with
      | [] => [[c]]
      | p :: ps => (c :: p) :: ps

/-- Modelled from the spec: `SerializeKernelType`, of which `kernel.h` has the
declaration only.  The string is `<operator-type>/<alias>` followed by the placement,
its three values joined by the same delimiter. -/
def SerializeKernelType (op_type alias_ : String) (place : Place) : String :=
  op_type ++ "/" ++ alias_ ++ "/" ++ String.mk (encodeEnum place.target) ++ "/" ++
    String.mk (encodeEnum place.precision) ++ "/" ++ String.mk (encodeEnum place.layout)

/-- Modelled from the spec: `ParseKernelType`, of which `kernel.h` has the declaration
only.  It splits on the delimiter of `SerializeKernelType` and decodes the placement;
the three results that the C++ stores through its pointer arguments are returned, and a
string that is not of the serialised form gives `none`. -/
def ParseKernelType (kernel_type : String) : Option (String × String × Place) :=
  match splitSlash kernel_type.toList with
  | [op_type, alias_, target, precision, layout] =>
    match decodeEnum target, decodeEnum precision, decodeEnum layout with
    | some t, some p, some l =>
      some (String.mk op_type, String.mk alias_, { target := t, precision := p, layout := l })
    | _, _, _ => none
  | _ => none

/-- The method `SerializedKernelType()`: `SerializeKernelType(op_type(), alias(), place())`, with
the value of the virtual `place()` as a parameter. -/
def KernelBase.SerializedKernelType {σ : Type} (k : KernelBase σ) (place : Place) : String :=
  SerializeKernelType k.op_type_ k.alias_ place

/-- The method `key_with_alias()`: `op_type()`, a slash and `alias()` joined, the two
accessors returning `op_type_` and `alias_`. -/
def KernelBase.key_with_alias {σ : Type} (k : KernelBase σ) : String :=
  k.op_type_ ++ "/" ++ k.alias_
/-! ## Theorems about `Launch` -/

theorem Exec.after_trace {σ : Type} (e : Event) (x : Exec σ) :
    (x.after e).trace = e :: x.trace := rfl

theorem Exec.after_status {σ : Type} (e : Event) (x : Exec σ) :
    (x.after e).status = x.status := rfl

theorem Exec.after_kernel {σ : Type} (e : Event) (x : Exec σ) :
    (x.after e).kernel = x.kernel := rfl

theorem Exec.ext {σ : Type} (x y : Exec σ) (h1 : x.kernel = y.kernel)
    (h2 : x.trace = y.trace) (h3 : x.status = y.status) : x = y := by
  cases x; cases y; simp_all

set_option maxHeartbeats 2000000 in
/-- The body of `Launch` computes the result that `launchByCases` spells out. -/
theorem Launch_eq_launchByCases {σ : Type} (cfg : BuildConfig) (vt : Methods σ)
    (k : KernelBase σ) : Launch cfg vt k = launchByCases cfg vt k := by
  generalize hx : Launch cfg vt k = x
  cases hp : cfg.LITE_WITH_PROFILE <;>
    simp only [Launch, guarded, call, emit, viaProfiler, clearFirstEpoch, finish, hp,
      Bool.false_and, Bool.true_and, Bool.false_eq_true, if_false] at hx <;>
    repeat' (split at hx)
  all_goals
    subst hx
    apply Exec.ext <;>
      simp_all [launchByCases, firstEpochBlock, resetTrace, headTrace, tailTrace, profiled,
        Exec.after_trace, Exec.after_status, Exec.after_kernel]

/-- The first block of `Launch` leaves the first-epoch flag cleared. -/
theorem firstEpochBlock_clears {σ : Type} (vt : Methods σ) (k k1 : KernelBase σ)
    (h : firstEpochBlock vt k = .ok k1) : k1.is_first_epoch_ = false := by
  unfold firstEpochBlock at h
  split at h
  · split at h
    · cases h; rfl
    · cases h
  · cases h; simp_all

/-- The arena resets of `Launch` include no timing call and no call of `Run`, and the
host arena once. -/
theorem resetTrace_facts {σ : Type} (cfg : BuildConfig) (k : KernelBase σ) :
    (resetTrace cfg k).count (Event.AllocReset .Host) = 1 ∧
    Event.Run ∉ resetTrace cfg k ∧
    ∀ (t : ProfileType) (id : Int) (c : Option KernelContext),
      Event.StartTiming t id c ∉ resetTrace cfg k ∧
      Event.StopTiming t id c ∉ resetTrace cfg k := by
  rcases cfg with ⟨p, x, m⟩
  cases hf : k.is_first_epoch_ <;> cases x <;> cases m <;> simp [resetTrace, hf]

/-- The place of the host arena reset among the calls of a `Launch` that gets to
`Run`. -/
theorem headTrace_order {σ : Type} (cfg : BuildConfig) (k k2 : KernelBase σ)
    (rest : List Event) (h : rest.count (Event.AllocReset .Host) = 0) :
    (headTrace cfg k k2 ++ Event.Run :: rest).count (Event.AllocReset .Host) = 1 ∧
    (headTrace cfg k k2 ++ Event.Run :: rest).indexOf Event.ReInitWhenNeeded
      < (headTrace cfg k k2 ++ Event.Run :: rest).indexOf (Event.AllocReset .Host) ∧
    (headTrace cfg k k2 ++ Event.Run :: rest).indexOf (Event.AllocReset .Host)
      < (headTrace cfg k k2 ++ Event.Run :: rest).indexOf Event.Run := by
  rcases cfg with ⟨p, x, m⟩
  cases hf : k.is_first_epoch_ <;> cases hk : k2.is_kernel_test_ <;> cases p <;>
    cases x <;> cases m <;>
    simp [headTrace, resetTrace, profiled, hf, hk, h, List.indexOf_cons]

/-- The order of the arena reset among the calls of one `Launch`. -/
theorem Launch_reset_order {σ : Type} (cfg : BuildConfig) (vt : Methods σ)
    (k : KernelBase σ) :
    (Launch cfg vt k).trace.count (.AllocReset .Host) ≤ 1 ∧
    (Event.Run ∈ (Launch cfg vt k).trace →
      (Launch cfg vt k).trace.count (.AllocReset .Host) = 1 ∧
      (Launch cfg vt k).trace.indexOf .ReInitWhenNeeded
        < (Launch cfg vt k).trace.indexOf (.AllocReset .Host) ∧
      (Launch cfg vt k).trace.indexOf (.AllocReset .Host)
        < (Launch cfg vt k).trace.indexOf .Run) := by
  obtain ⟨r1, r2, _⟩ := resetTrace_facts cfg k
  have key : ∀ (k2 : KernelBase σ) (rest : List Event),
      rest.count (Event.AllocReset .Host) = 0 →
      (headTrace cfg k k2 ++ Event.Run :: rest).count (.AllocReset .Host) ≤ 1 ∧
      (Event.Run ∈ headTrace cfg k k2 ++ Event.Run :: rest →
        (headTrace cfg k k2 ++ Event.Run :: rest).count (.AllocReset .Host) = 1 ∧
        (headTrace cfg k k2 ++ Event.Run :: rest).indexOf .ReInitWhenNeeded
          < (headTrace cfg k k2 ++ Event.Run :: rest).indexOf (.AllocReset .Host) ∧
        (headTrace cfg k k2 ++ Event.Run :: rest).indexOf (.AllocReset .Host)
          < (headTrace cfg k k2 ++ Event.Run :: rest).indexOf .Run) :=
    fun k2 rest h => ⟨le_of_eq (headTrace_order cfg k k2 rest h).1,
      fun _ => headTrace_order cfg k k2 rest h⟩
  rw [Launch_eq_launchByCases]
  rcases hb : firstEpochBlock vt k with msg | k1
  · simp [launchByCases, hb]
  rcases hr : vt.ReInitWhenNeeded k1 with msg | k2
  · simp only [launchByCases, hb, hr]
    split <;> simp
  by_cases hg : profiled cfg k2 = true ∧ k2.profiler_ = none
  · simp only [launchByCases, hb, hr, hg, and_self, if_true]
    exact ⟨le_of_eq r1, fun h => absurd h r2⟩
  rcases hrun : vt.Run k2 with msg | k3
  · simp only [launchByCases, hb, hr, hrun, if_neg hg]
    exact key k2 [] rfl
  cases hp3 : profiled cfg k3 with
  | false =>
    simp only [launchByCases, hb, hr, hrun, if_neg hg, hp3, Bool.false_eq_true, if_false]
    exact key k2 [] rfl
  | true =>
    by_cases h3 : k3.profiler_ = none
    · simp only [launchByCases, hb, hr, hrun, if_neg hg, hp3, if_true, h3]
      exact key k2 [] rfl
    rcases hinfo : vt.SetProfileRuntimeKernelInfo k3 with msg | k4
    · simp only [launchByCases, hb, hr, hrun, if_neg hg, hp3, if_true, if_neg h3, hinfo]
      exact key k2 _ rfl
    by_cases h4 : k4.profiler_ = none
    · simp only [launchByCases, hb, hr, hrun, if_neg hg, hp3, if_true, if_neg h3, hinfo, h4]
      exact key k2 _ rfl
    · simp only [launchByCases, hb, hr, hrun, if_neg hg, hp3, if_true, if_neg h3, hinfo,
        if_neg h4, List.append_assoc, List.singleton_append]
      exact key k2 _ (by simp [tailTrace, hp3])

/-- When `Run` is the `CHECK(false)` of `KernelLite`, `Launch` does not return, and a
`Launch` that got to `Run` ended there, in the abort of that `CHECK`. -/
theorem Launch_KernelLite {σ : Type} (cfg : BuildConfig) (prepare reinit info : Method σ)
    (k : KernelBase σ) :
    (Launch cfg (KernelLite.methods prepare reinit info) k).status ≠ .returned ∧
    (Event.Run ∈ (Launch cfg (KernelLite.methods prepare reinit info) k).trace →
      (Launch cfg (KernelLite.methods prepare reinit info) k).status
          = .aborted "Not Implemented" ∧
      (Launch cfg (KernelLite.methods prepare reinit info) k).trace.getLast? = some .Run) := by
  rw [Launch_eq_launchByCases]
  generalize hx : launchByCases cfg (KernelLite.methods prepare reinit info) k = x
  have hrun : ∀ k2, (KernelLite.methods prepare reinit info).Run k2
      = .error "Not Implemented" := fun _ => rfl
  simp only [launchByCases, hrun] at hx
  repeat' (split at hx)
  all_goals
    subst hx
    simp only [List.getLast?_concat]
    rcases cfg with ⟨p, x86, m⟩
    cases x86 <;> cases m <;> cases hf : k.is_first_epoch_ <;> simp [resetTrace]

/-- A `Launch` in which `Run` aborts. -/
theorem Launch_of_run_error {σ : Type} (cfg : BuildConfig) (vt : Methods σ)
    (k k1 k2 : KernelBase σ) (msg : String) (hb : firstEpochBlock vt k = .ok k1)
    (hr : vt.ReInitWhenNeeded k1 = .ok k2)
    (hp : profiled cfg k2 = false ∨ k2.profiler_.isSome = true)
    (hrun : vt.Run k2 = .error msg) :
    Launch cfg vt k
      = { kernel := k2, trace := headTrace cfg k k2 ++ [.Run], status := .aborted msg } := by
  have hg : ¬ (profiled cfg k2 = true ∧ k2.profiler_ = none) := by
    rintro ⟨h1, h2⟩
    rcases hp with hp | hp
    · rw [h1] at hp; cases hp
    · rw [h2] at hp; cases hp
  rw [Launch_eq_launchByCases]
  simp only [launchByCases, hb, hr, hrun, if_neg hg]

/-- A `Launch` that does not enter the profiling block after `Run`. -/
theorem Launch_of_run_plain {σ : Type} (cfg : BuildConfig) (vt : Methods σ)
    (k k1 k2 k3 : KernelBase σ) (hb : firstEpochBlock vt k = .ok k1)
    (hr : vt.ReInitWhenNeeded k1 = .ok k2)
    (hp : profiled cfg k2 = false ∨ k2.profiler_.isSome = true)
    (hrun : vt.Run k2 = .ok k3) (hp3 : profiled cfg k3 = false) :
    Launch cfg vt k
      = { kernel := k3, trace := headTrace cfg k k2 ++ [.Run], status := .returned } := by
  have hg : ¬ (profiled cfg k2 = true ∧ k2.profiler_ = none) := by
    rintro ⟨h1, h2⟩
    rcases hp with hp | hp
    · rw [h1] at hp; cases hp
    · rw [h2] at hp; cases hp
  rw [Launch_eq_launchByCases]
  simp only [launchByCases, hb, hr, hrun, if_neg hg, hp3, Bool.false_eq_true, if_false]

/-- A `Launch` that enters the profiling block after `Run` and gets through it. -/
theorem Launch_of_run_profiled {σ : Type} (cfg : BuildConfig) (vt : Methods σ)
    (k k1 k2 k3 k4 : KernelBase σ) (hb : firstEpochBlock vt k = .ok k1)
    (hr : vt.ReInitWhenNeeded k1 = .ok k2)
    (hp : profiled cfg k2 = false ∨ k2.profiler_.isSome = true)
    (hrun : vt.Run k2 = .ok k3) (hp3 : profiled cfg k3 = true)
    (hs3 : k3.profiler_.isSome = true)
    (hinfo : vt.SetProfileRuntimeKernelInfo k3 = .ok k4)
    (hs4 : k4.profiler_.isSome = true) :
    Launch cfg vt k
      = { kernel := k4, trace := headTrace cfg k k2 ++ [.Run] ++ tailTrace cfg k3 k4,
          status := .returned } := by
  have hg : ¬ (profiled cfg k2 = true ∧ k2.profiler_ = none) := by
    rintro ⟨h1, h2⟩
    rcases hp with hp | hp
    · rw [h1] at hp; cases hp
    · rw [h2] at hp; cases hp
  have h3 : ¬ k3.profiler_ = none := by
    intro h; rw [h] at hs3; cases hs3
  have h4 : ¬ k4.profiler_ = none := by
    intro h; rw [h] at hs4; cases hs4
  rw [Launch_eq_launchByCases]
  simp only [launchByCases, hb, hr, hrun, hinfo, if_neg hg, hp3, if_true, if_neg h3,
    if_neg h4]

/-- A `Launch` that returns has run the virtual methods one after the other, each on the
object the one before left, and has made the calls of `headTrace`, `Run` and
`tailTrace`; it went through no null `profiler_`. -/
theorem Launch_returned {σ : Type} (cfg : BuildConfig) (vt : Methods σ) (k : KernelBase σ)
    (h : (Launch cfg vt k).status = .returned) :
    ∃ k2 k3, LaunchRan cfg vt k k2 k3 (Launch cfg vt k).kernel ∧
      (Launch cfg vt k).trace
        = headTrace cfg k k2 ++ [.Run] ++ tailTrace cfg k3 (Launch cfg vt k).kernel ∧
      (profiled cfg k2 = true → k2.profiler_.isSome = true) ∧
      (profiled cfg k3 = true →
        k3.profiler_.isSome = true ∧ (Launch cfg vt k).kernel.profiler_.isSome = true) := by
  rw [Launch_eq_launchByCases] at h ⊢
  rcases hb : firstEpochBlock vt k with msg | k1
  · simp [launchByCases, hb] at h
  rcases hr : vt.ReInitWhenNeeded k1 with msg | k2
  · simp [launchByCases, hb, hr] at h
  by_cases hg : profiled cfg k2 = true ∧ k2.profiler_ = none
  · simp [launchByCases, hb, hr, hg] at h
  rcases hrun : vt.Run k2 with msg | k3
  · simp [launchByCases, hb, hr, hg, hrun] at h
  have hg2 : profiled cfg k2 = true → k2.profiler_.isSome = true := by
    intro h1
    cases h2 : k2.profiler_ with
    | none => exact absurd ⟨h1, h2⟩ hg
    | some _ => rfl
  cases hp3 : profiled cfg k3 with
  | false =>
    simp only [launchByCases, hb, hr, hrun, if_neg hg, hp3, Bool.false_eq_true, if_false]
    exact ⟨k2, k3, ⟨k1, hb, hr, hrun, Or.inl ⟨hp3, rfl⟩⟩, by simp [tailTrace, hp3], hg2,
      by simp [hp3]⟩
  | true =>
    by_cases h3 : k3.profiler_ = none
    · simp [launchByCases, hb, hr, hg, hrun, hp3, h3] at h
    rcases hinfo : vt.SetProfileRuntimeKernelInfo k3 with msg | k4
    · simp [launchByCases, hb, hr, hg, hrun, hp3, h3, hinfo] at h
    by_cases h4 : k4.profiler_ = none
    · simp [launchByCases, hb, hr, hg, hrun, hp3, h3, hinfo, h4] at h
    simp only [launchByCases, hb, hr, hrun, hinfo, if_neg hg, hp3, if_true, if_neg h3,
      if_neg h4]
    refine ⟨k2, k3, ⟨k1, hb, hr, hrun, Or.inr ⟨hp3, hinfo⟩⟩, rfl, hg2, fun _ => ⟨?_, ?_⟩⟩
    · cases h5 : k3.profiler_ with
      | none => exact absurd h5 h3
      | some _ => rfl
    · cases h5 : k4.profiler_ with
      | none => exact absurd h5 h4
      | some _ => rfl

/-- How often the virtual methods are called in a `Launch` that returns. -/
theorem launchTrace_counts {σ : Type} (cfg : BuildConfig) (k k2 k3 k4 : KernelBase σ) :
    (headTrace cfg k k2 ++ [Event.Run] ++ tailTrace cfg k3 k4).count Event.PrepareForRun
      = (if k.is_first_epoch_ then 1 else 0) ∧
    (headTrace cfg k k2 ++ [Event.Run] ++ tailTrace cfg k3 k4).count Event.ReInitWhenNeeded = 1 ∧
    (headTrace cfg k k2 ++ [Event.Run] ++ tailTrace cfg k3 k4).count Event.Run = 1 := by
  rcases cfg with ⟨p, x, m⟩
  cases hf : k.is_first_epoch_ <;> cases hk2 : k2.is_kernel_test_ <;>
    cases hk3 : k3.is_kernel_test_ <;> cases p <;> cases x <;> cases m <;>
    simp [headTrace, resetTrace, tailTrace, profiled, hf, hk2, hk3]

/-- With virtual methods that do not set the flag, a `Launch` that returns leaves the
first-epoch flag cleared. -/
theorem LaunchRan_flag {σ : Type} (cfg : BuildConfig) (vt : Methods σ)
    (k k2 k3 k4 : KernelBase σ) (hR : KeepsFirstEpochCleared vt.ReInitWhenNeeded)
    (hRun : KeepsFirstEpochCleared vt.Run) (hI : KeepsFirstEpochCleared vt.SetProfileRuntimeKernelInfo)
    (h : LaunchRan cfg vt k k2 k3 k4) : k4.is_first_epoch_ = false := by
  obtain ⟨k1, hb, hr, hrun, h4⟩ := h
  have e1 := firstEpochBlock_clears vt k k1 hb
  have e2 := hR k1 k2 hr e1
  have e3 := hRun k2 k3 hrun e2
  rcases h4 with ⟨_, rfl⟩ | ⟨_, hinfo⟩
  · exact e3
  · exact hI k3 k4 hinfo e3

theorem LaunchN_succ {σ : Type} (cfg : BuildConfig) (vt : Methods σ) (n : Nat)
    (k : KernelBase σ) (h : (LaunchN cfg vt (n + 1) k).status = .returned) :
    (LaunchN cfg vt n k).status = .returned ∧
    (Launch cfg vt (LaunchN cfg vt n k).kernel).status = .returned ∧
    (LaunchN cfg vt (n + 1) k).trace
      = (LaunchN cfg vt n k).trace ++ (Launch cfg vt (LaunchN cfg vt n k).kernel).trace ∧
    (LaunchN cfg vt (n + 1) k).kernel = (Launch cfg vt (LaunchN cfg vt n k).kernel).kernel := by
  revert h
  simp only [LaunchN]
  cases hs : (LaunchN cfg vt n k).status <;> simp [hs]

theorem LaunchN_mono {σ : Type} (cfg : BuildConfig) (vt : Methods σ) (k : KernelBase σ)
    (n j : Nat) (hj : j ≤ n) (h : (LaunchN cfg vt n k).status = .returned) :
    (LaunchN cfg vt j k).status = .returned := by
  induction n with
  | zero =>
    have : j = 0 := by omega
    subst this; exact h
  | succ n ih =>
    rcases Nat.lt_or_ge j (n + 1) with hlt | hge
    · exact ih (by omega) (LaunchN_succ cfg vt n k h).1
    · have : j = n + 1 := by omega
      subst this; exact h

theorem LaunchN_head {σ : Type} (cfg : BuildConfig) (vt : Methods σ) (n : Nat)
    (k : KernelBase σ) (h : (LaunchN cfg vt (n + 1) k).status = .returned) :
    (Launch cfg vt k).status = .returned ∧
    (Launch cfg vt k).trace <+: (LaunchN cfg vt (n + 1) k).trace := by
  induction n with
  | zero =>
    obtain ⟨_, h2, h3, _⟩ := LaunchN_succ cfg vt 0 k h
    have e0 : (LaunchN cfg vt 0 k).kernel = k := rfl
    have e1 : (LaunchN cfg vt 0 k).trace = [] := rfl
    rw [e0] at h2 h3
    rw [e1] at h3
    exact ⟨h2, by rw [h3]; simp⟩
  | succ n ih =>
    obtain ⟨h1, _, h3, _⟩ := LaunchN_succ cfg vt (n + 1) k h
    obtain ⟨j1, j2⟩ := ih h1
    exact ⟨j1, by rw [h3]; exact j2.trans (List.prefix_append _ _)⟩

/-- Each call of a series of calls that all return has run the virtual methods, from the
object the call before left to the object it leaves itself. -/
theorem LaunchN_ran {σ : Type} (cfg : BuildConfig) (vt : Methods σ) (k : KernelBase σ)
    (n j : Nat) (hj : j < n) (h : (LaunchN cfg vt n k).status = .returned) :
    ∃ k2 k3, LaunchRan cfg vt (LaunchN cfg vt j k).kernel k2 k3
      (LaunchN cfg vt (j + 1) k).kernel := by
  have hs := LaunchN_mono cfg vt k n (j + 1) hj h
  obtain ⟨_, h2, _, h4⟩ := LaunchN_succ cfg vt j k hs
  obtain ⟨k2, k3, hran, _⟩ := Launch_returned cfg vt _ h2
  exact ⟨k2, k3, by rw [h4]; exact hran⟩

/-- The counts of a series of calls that all return, on a kernel whose virtual methods
do not set the first-epoch flag. -/
theorem LaunchN_counts {σ : Type} (cfg : BuildConfig) (vt : Methods σ) (n : Nat)
    (k : KernelBase σ) (hR : KeepsFirstEpochCleared vt.ReInitWhenNeeded)
    (hRun : KeepsFirstEpochCleared vt.Run) (hI : KeepsFirstEpochCleared vt.SetProfileRuntimeKernelInfo)
    (h : (LaunchN cfg vt n k).status = .returned) :
    (LaunchN cfg vt n k).trace.count .PrepareForRun
      = (if k.is_first_epoch_ = true ∧ 0 < n then 1 else 0) ∧
    (LaunchN cfg vt n k).trace.count .ReInitWhenNeeded = n ∧
    (LaunchN cfg vt n k).trace.count .Run = n ∧
    (LaunchN cfg vt n k).kernel.is_first_epoch_ = (k.is_first_epoch_ && decide (n = 0)) := by
  induction n with
  | zero => simp [LaunchN]
  | succ n ih =>
    obtain ⟨h1, h2, h3, h4⟩ := LaunchN_succ cfg vt n k h
    obtain ⟨i1, i2, i3, i4⟩ := ih h1
    obtain ⟨k2, k3, hran, htr, _⟩ := Launch_returned cfg vt _ h2
    have hflag := LaunchRan_flag cfg vt _ k2 k3 _ hR hRun hI hran
    obtain ⟨c1, c2, c3⟩ := launchTrace_counts cfg (LaunchN cfg vt n k).kernel k2 k3
      (Launch cfg vt (LaunchN cfg vt n k).kernel).kernel
    have e : ∀ a, (LaunchN cfg vt (n + 1) k).trace.count a
        = (LaunchN cfg vt n k).trace.count a
          + (headTrace cfg (LaunchN cfg vt n k).kernel k2 ++ [Event.Run]
              ++ tailTrace cfg k3 (Launch cfg vt (LaunchN cfg vt n k).kernel).kernel).count a := by
      intro a
      rw [h3, htr, List.count_append]
    rw [e, e, e, c1, c2, c3, i1, i2, i3, h4, hflag, i4]
    refine ⟨?_, rfl, rfl, by simp⟩
    cases k.is_first_epoch_ <;> cases n <;> simp

/-- When `PrepareForRun` returns wherever it is called, the first block of `Launch` is
got through. -/
theorem firstEpochBlock_of_returns {σ : Type} (vt : Methods σ) (k : KernelBase σ)
    (hP : Returns vt.PrepareForRun) : ∃ k1, firstEpochBlock vt k = .ok k1 := by
  obtain ⟨k0, h0⟩ := hP k
  unfold firstEpochBlock
  cases k.is_first_epoch_ <;> simp [h0]

/-- The first block of `Launch` writes `is_first_epoch_` only: what `PrepareForRun`
leaves of `profiler_` and `is_kernel_test_` is what the block leaves. -/
theorem firstEpochBlock_keeps {σ : Type} (vt : Methods σ) (k k1 : KernelBase σ)
    (hP : KeepsProfiling vt.PrepareForRun) (h : firstEpochBlock vt k = .ok k1) :
    k1.profiler_ = k.profiler_ ∧ k1.is_kernel_test_ = k.is_kernel_test_ := by
  unfold firstEpochBlock at h
  split at h
  · split at h
    · rename_i k0 h0
      cases h
      exact hP k k0 h0
    · cases h
  · cases h
    exact ⟨rfl, rfl⟩

/-- Once `PrepareForRun` and `ReInitWhenNeeded` have returned, the host arena is reset
in this `Launch`, once. -/
theorem Launch_resets {σ : Type} (cfg : BuildConfig) (vt : Methods σ)
    (k k1 k2 : KernelBase σ) (hb : firstEpochBlock vt k = .ok k1)
    (hr : vt.ReInitWhenNeeded k1 = .ok k2) :
    (Launch cfg vt k).trace.count (.AllocReset .Host) = 1 := by
  have h0 := (resetTrace_facts cfg k).1
  rw [Launch_eq_launchByCases]
  simp only [launchByCases, hb, hr]
  repeat' split
  all_goals
    simp only [headTrace, tailTrace, List.count_append, h0]
    repeat' split
    all_goals simp

/-- A `Launch` that reads its profiling guard as false wherever it reads it makes no
timing call. -/
theorem Launch_untimed {σ : Type} (cfg : BuildConfig) (vt : Methods σ) (k : KernelBase σ)
    (h : ∀ k1 k2, firstEpochBlock vt k = .ok k1 → vt.ReInitWhenNeeded k1 = .ok k2 →
      profiled cfg k2 = false ∧ ∀ k3, vt.Run k2 = .ok k3 → profiled cfg k3 = false)
    (t : ProfileType) (id : Int) (c : Option KernelContext) :
    Event.StartTiming t id c ∉ (Launch cfg vt k).trace ∧
    Event.StopTiming t id c ∉ (Launch cfg vt k).trace := by
  have h0 := (resetTrace_facts cfg k).2.2 t id c
  rw [Launch_eq_launchByCases]
  rcases hb : firstEpochBlock vt k with msg | k1
  · simp [launchByCases, hb]
  rcases hr : vt.ReInitWhenNeeded k1 with msg | k2
  · simp only [launchByCases, hb, hr]
    split <;> simp
  obtain ⟨hp2, hp3⟩ := h k1 k2 hb hr
  rcases hrun : vt.Run k2 with msg | k3
  · simp [launchByCases, hb, hr, hrun, hp2, headTrace, h0]
  · simp [launchByCases, hb, hr, hrun, hp2, hp3 k3 hrun, headTrace, h0]
/-! ## The claims about `Launch` -/

/-- C1, as stated, fails: the `Run` of `rearmingKernel` returns wherever it is called,
and it sets the protected member `is_first_epoch_`.  After the first `Launch` of a
freshly constructed object the flag is true again, and two calls, which both return,
call `PrepareForRun` twice. -/
theorem C1_rearming_run_counterexample :
    Returns rearmingKernel.Run ∧
    (LaunchN plainBuild rearmingKernel 2 (KernelBase.fresh 0)).status = .returned ∧
    (LaunchN plainBuild rearmingKernel 2 (KernelBase.fresh 0)).trace
      = [.PrepareForRun, .ReInitWhenNeeded, .AllocReset .Host, .Run,
         .PrepareForRun, .ReInitWhenNeeded, .AllocReset .Host, .Run] ∧
    (LaunchN plainBuild rearmingKernel 2 (KernelBase.fresh 0)).trace.count .PrepareForRun
      = 2 ∧
    (Launch plainBuild rearmingKernel (KernelBase.fresh 0)).status = .returned ∧
    (Launch plainBuild rearmingKernel (KernelBase.fresh 0)).kernel.is_first_epoch_ = true :=
  ⟨fun _ => ⟨_, rfl⟩, rfl, rfl, by decide, rfl, rfl⟩

/-- C1, amended: on a kernel whose first-epoch flag is still set and whose
`ReInitWhenNeeded`, `Run` and `SetProfileRuntimeKernelInfo` do not set that flag, a
series of `n ≥ 1` calls of `Launch` that all return calls `PrepareForRun` once, in
the first call and ahead of that call's `ReInitWhenNeeded`, and calls `ReInitWhenNeeded`
and `Run` `n` times each; after each of the calls the first-epoch flag is false; and
each call has run the virtual methods, one after the other, on the object the call
before left. -/
theorem C1_launch_lifecycle {σ : Type} (cfg : BuildConfig) (vt : Methods σ)
    (k : KernelBase σ) (n : Nat) (hR : KeepsFirstEpochCleared vt.ReInitWhenNeeded)
    (hRun : KeepsFirstEpochCleared vt.Run) (hI : KeepsFirstEpochCleared vt.SetProfileRuntimeKernelInfo)
    (hfresh : k.is_first_epoch_ = true) (hn : 1 ≤ n)
    (hret : (LaunchN cfg vt n k).status = .returned) :
    (LaunchN cfg vt n k).trace.count .PrepareForRun = 1 ∧
    (∃ rest, (Launch cfg vt k).trace = .PrepareForRun :: .ReInitWhenNeeded :: rest) ∧
    (Launch cfg vt k).trace <+: (LaunchN cfg vt n k).trace ∧
    (LaunchN cfg vt n k).trace.count .ReInitWhenNeeded = n ∧
    (LaunchN cfg vt n k).trace.count .Run = n ∧
    (∀ j, 1 ≤ j → j ≤ n → (LaunchN cfg vt j k).kernel.is_first_epoch_ = false) ∧
    (∀ j, j < n → ∃ k2 k3, LaunchRan cfg vt (LaunchN cfg vt j k).kernel k2 k3
      (LaunchN cfg vt (j + 1) k).kernel) := by
  obtain ⟨m, rfl⟩ : ∃ m, n = m + 1 := ⟨n - 1, by omega⟩
  obtain ⟨c1, c2, c3, _⟩ := LaunchN_counts cfg vt _ k hR hRun hI hret
  obtain ⟨f1, f2⟩ := LaunchN_head cfg vt m k hret
  obtain ⟨k2, k3, _, g1, _⟩ := Launch_returned cfg vt k f1
  refine ⟨by simpa [hfresh] using c1,
    ⟨_, by rw [g1]; simp [headTrace, resetTrace, hfresh]; rfl⟩, f2, c2, c3, ?_,
    fun j hj => LaunchN_ran cfg vt k _ j hj hret⟩
  intro j hj1 hjn
  have hs := LaunchN_mono cfg vt k _ j hjn hret
  have := (LaunchN_counts cfg vt j k hR hRun hI hs).2.2.2
  rw [this]
  have : j ≠ 0 := by omega
  simp [this]

/-- Witness for C1, amended: three calls on a freshly constructed `countingKernel`
object call `PrepareForRun` once and `Run` three times, and the third call has run the
methods on the object the second left; the state of the object counts three runs. -/
theorem C1_launch_lifecycle_witness :
    (LaunchN plainBuild countingKernel 3 (KernelBase.fresh 0)).trace.count .PrepareForRun = 1 ∧
    (LaunchN plainBuild countingKernel 3 (KernelBase.fresh 0)).trace.count .Run = 3 ∧
    (∃ k2 k3, LaunchRan plainBuild countingKernel
      (LaunchN plainBuild countingKernel 2 (KernelBase.fresh 0)).kernel k2 k3
      (LaunchN plainBuild countingKernel 3 (KernelBase.fresh 0)).kernel) ∧
    (LaunchN plainBuild countingKernel 3 (KernelBase.fresh 0)).kernel.derived = 3 :=
  have h := C1_launch_lifecycle plainBuild countingKernel (KernelBase.fresh 0) 3
    (fun _ _ e h => by cases e; exact h) (fun _ _ e h => by cases e; exact h)
    (fun _ _ e h => by cases e; exact h) rfl (by decide) rfl
  ⟨h.1, h.2.2.2.2.1, h.2.2.2.2.2.2 2 (by decide), rfl⟩

/-- C2: in every `Launch` the host arena is reset at most once; a `Launch` that enters
`Run` has by then reset it exactly once, after `ReInitWhenNeeded` and before `Run`; and
the reset takes place whenever `PrepareForRun` and `ReInitWhenNeeded` return. -/
theorem C2_arena_reset_before_run {σ : Type} (cfg : BuildConfig) (vt : Methods σ)
    (k : KernelBase σ) :
    (Launch cfg vt k).trace.count (.AllocReset .Host) ≤ 1 ∧
    (Event.Run ∈ (Launch cfg vt k).trace →
      (Launch cfg vt k).trace.count (.AllocReset .Host) = 1 ∧
      (Launch cfg vt k).trace.indexOf .ReInitWhenNeeded
        < (Launch cfg vt k).trace.indexOf (.AllocReset .Host) ∧
      (Launch cfg vt k).trace.indexOf (.AllocReset .Host)
        < (Launch cfg vt k).trace.indexOf .Run) ∧
    (Returns vt.PrepareForRun → Returns vt.ReInitWhenNeeded →
      (Launch cfg vt k).trace.count (.AllocReset .Host) = 1) := by
  refine ⟨(Launch_reset_order cfg vt k).1, (Launch_reset_order cfg vt k).2, fun hP hR => ?_⟩
  obtain ⟨k1, hb⟩ := firstEpochBlock_of_returns vt k hP
  obtain ⟨k2, hr⟩ := hR k1
  exact Launch_resets cfg vt k k1 k2 hb hr

/-- Witness for C2: the first `Launch` of a `countingKernel` object enters `Run`. -/
theorem C2_arena_reset_before_run_witness :
    Event.Run ∈ (Launch profileBuild countingKernel (KernelBase.fresh 0)).trace ∧
    (Launch profileBuild countingKernel (KernelBase.fresh 0)).trace.count
      (.AllocReset .Host) = 1 :=
  ⟨by decide,
    ((C2_arena_reset_before_run profileBuild countingKernel (KernelBase.fresh 0)).2.1
      (by decide)).1⟩

/-- C3: a `KernelLite` object that keeps the `Run` of `KernelLite` never returns from
`Launch`, whatever its state, its other virtual methods and the build; a `Launch` that
gets to `Run` ends there in the abort of `CHECK(false)`; and it gets there whenever
`PrepareForRun` and `ReInitWhenNeeded` return on the objects `Launch` hands them and no
null `profiler_` is gone through on the way, in particular whenever the two return
wherever they are called and leave the profiling members alone. -/
theorem C3_unimplemented_run_is_fatal {σ : Type} (cfg : BuildConfig)
    (prepare reinit info : Method σ) (k : KernelBase σ) :
    (Launch cfg (KernelLite.methods prepare reinit info) k).status ≠ .returned ∧
    (Event.Run ∈ (Launch cfg (KernelLite.methods prepare reinit info) k).trace →
      (Launch cfg (KernelLite.methods prepare reinit info) k).status
          = .aborted "Not Implemented" ∧
      (Launch cfg (KernelLite.methods prepare reinit info) k).trace.getLast? = some .Run) ∧
    (∀ k1 k2, firstEpochBlock (KernelLite.methods prepare reinit info) k = .ok k1 →
      reinit k1 = .ok k2 →
      (profiled cfg k2 = false ∨ k2.profiler_.isSome = true) →
      (Launch cfg (KernelLite.methods prepare reinit info) k).status
          = .aborted "Not Implemented") ∧
    (Returns prepare → Returns reinit → KeepsProfiling prepare → KeepsProfiling reinit →
      (profiled cfg k = false ∨ k.profiler_.isSome = true) →
      (Launch cfg (KernelLite.methods prepare reinit info) k).status
          = .aborted "Not Implemented") := by
  have key : ∀ k1 k2, firstEpochBlock (KernelLite.methods prepare reinit info) k = .ok k1 →
      reinit k1 = .ok k2 →
      (profiled cfg k2 = false ∨ k2.profiler_.isSome = true) →
      (Launch cfg (KernelLite.methods prepare reinit info) k).status
          = .aborted "Not Implemented" := by
    intro k1 k2 hb hr hp
    rw [Launch_of_run_error cfg (KernelLite.methods prepare reinit info) k k1 k2
      "Not Implemented" hb hr hp rfl]
  refine ⟨(Launch_KernelLite cfg prepare reinit info k).1,
    (Launch_KernelLite cfg prepare reinit info k).2, key, fun hP hR fP fR hp => ?_⟩
  obtain ⟨k1, hb⟩ := firstEpochBlock_of_returns (KernelLite.methods prepare reinit info) k hP
  obtain ⟨k2, hr⟩ := hR k1
  obtain ⟨e1, e2⟩ := firstEpochBlock_keeps (KernelLite.methods prepare reinit info) k k1 fP hb
  obtain ⟨e3, e4⟩ := fR k1 k2 hr
  refine key k1 k2 hb hr ?_
  simpa [profiled, e1, e2, e3, e4] using hp

/-- Witness for C3: a freshly constructed object with the empty bodies of `KernelBase`
for its other virtual methods aborts in `Run`. -/
theorem C3_unimplemented_run_is_fatal_witness :
    (Launch plainBuild (KernelLite.methods emptyBody emptyBody emptyBody)
      (KernelBase.fresh ())).status = .aborted "Not Implemented" :=
  (C3_unimplemented_run_is_fatal plainBuild emptyBody emptyBody emptyBody
    (KernelBase.fresh ())).2.2.1 _ _ rfl rfl (Or.inl rfl)

/-- C4, as stated, fails: a freshly constructed object, on which `SetContext` was never
called, goes through `Launch` to `Run`, which runs, and `Launch` returns. -/
theorem C4_null_context_counterexample :
    (KernelBase.fresh 0 : KernelBase Nat).ctx_ = none ∧
    (Launch plainBuild countingKernel (KernelBase.fresh 0)).status = .returned ∧
    (Launch plainBuild countingKernel (KernelBase.fresh 0)).trace
      = [.PrepareForRun, .ReInitWhenNeeded, .AllocReset .Host, .Run] ∧
    (Launch plainBuild countingKernel (KernelBase.fresh 0)).kernel.derived = 1 :=
  ⟨rfl, rfl, rfl, rfl⟩

/-- C4, amended: `Launch` makes no check of the context.  For every object, its context
null or bound, once `PrepareForRun` and `ReInitWhenNeeded` have returned on the objects
`Launch` hands them and no null `profiler_` is gone through, `Launch` resets the host
arena, once, and then calls `Run` on the object `k2` that `ReInitWhenNeeded` left: the
calls up to there are those of `headTrace`, the reset among them.  `Launch` aborts at
`Run` only when `Run` itself fails a `CHECK`, with the message of `Run`, and it returns,
with the object the last virtual method left, when `Run` and, in a profiled launch,
`SetProfileRuntimeKernelInfo` return. -/
theorem C4_null_context_reaches_run {σ : Type} (cfg : BuildConfig) (vt : Methods σ)
    (k k1 k2 : KernelBase σ) (hb : firstEpochBlock vt k = .ok k1)
    (hr : vt.ReInitWhenNeeded k1 = .ok k2)
    (hprof : profiled cfg k2 = false ∨ k2.profiler_.isSome = true) :
    (Launch cfg vt k).trace.count (.AllocReset .Host) = 1 ∧
    (∃ rest, (Launch cfg vt k).trace
      = (if k.is_first_epoch_ then [.PrepareForRun] else []) ++
        [.ReInitWhenNeeded, .AllocReset .Host] ++
        (if cfg.LITE_WITH_X86 then [.AllocReset .X86] else []) ++
        (if cfg.LITE_WITH_METAL then [.AllocReset .METAL] else []) ++
        (if profiled cfg k2 then
          [.StopTiming .kCreate k2.profile_id_ k2.ctx_,
           .StartTiming .kDispatch k2.profile_id_ k2.ctx_]
         else []) ++
        .Run :: rest) ∧
    (∀ msg, vt.Run k2 = .error msg → (Launch cfg vt k).status = .aborted msg) ∧
    (∀ k3, vt.Run k2 = .ok k3 → profiled cfg k3 = false →
      (Launch cfg vt k).status = .returned ∧ (Launch cfg vt k).kernel = k3) ∧
    (∀ k3 k4, vt.Run k2 = .ok k3 → profiled cfg k3 = true →
      k3.profiler_.isSome = true → vt.SetProfileRuntimeKernelInfo k3 = .ok k4 →
      k4.profiler_.isSome = true →
      (Launch cfg vt k).status = .returned ∧ (Launch cfg vt k).kernel = k4) := by
  have hg : ¬ (profiled cfg k2 = true ∧ k2.profiler_ = none) := by
    rintro ⟨h1, h2⟩
    rcases hprof with hp | hp
    · rw [h1] at hp; cases hp
    · rw [h2] at hp; cases hp
  refine ⟨Launch_resets cfg vt k k1 k2 hb hr, ?_, ?_, ?_, ?_⟩
  · have e : (Launch cfg vt k).trace = headTrace cfg k k2 ++
        (Launch cfg vt k).trace.drop (headTrace cfg k k2).length ∧
        ∃ rest, (Launch cfg vt k).trace.drop (headTrace cfg k k2).length = .Run :: rest := by
      rw [Launch_eq_launchByCases]
      simp only [launchByCases, hb, hr, if_neg hg]
      repeat' split
      all_goals simp
    obtain ⟨e1, rest, e2⟩ := e
    refine ⟨rest, ?_⟩
    rw [← e2]
    exact e1
  · intro msg hrun
    rw [Launch_of_run_error cfg vt k k1 k2 msg hb hr hprof hrun]
  · intro k3 hrun hp3
    rw [Launch_of_run_plain cfg vt k k1 k2 k3 hb hr hprof hrun hp3]
    exact ⟨rfl, rfl⟩
  · intro k3 k4 hrun hp3 hs3 hinfo hs4
    rw [Launch_of_run_profiled cfg vt k k1 k2 k3 k4 hb hr hprof hrun hp3 hs3 hinfo hs4]
    exact ⟨rfl, rfl⟩

/-- Witness for C4, amended: a freshly constructed `checkedKernel` object, its context
null; its `Run` does not return in every state, and it returns in this `Launch`. -/
theorem C4_null_context_reaches_run_witness :
    (KernelBase.fresh 0 : KernelBase Nat).ctx_ = none ∧
    (Launch plainBuild checkedKernel (KernelBase.fresh 0)).status = .returned ∧
    (Launch plainBuild checkedKernel (KernelBase.fresh 0)).kernel
      = { (KernelBase.fresh 0 : KernelBase Nat) with is_first_epoch_ := false, derived := 1 } :=
  ⟨rfl, (C4_null_context_reaches_run plainBuild checkedKernel (KernelBase.fresh 0) _ _
    rfl rfl (Or.inl rfl)).2.2.2.1 _ rfl rfl⟩

/-- C5, as stated, fails: with a profiler attached by `SetProfiler` and nothing else
done, `is_kernel_test_` is still true and `Launch` issues no timing call. -/
theorem C5_profiler_attached_counterexample :
    ((KernelBase.fresh 0 : KernelBase Nat).SetProfiler (some 1) 0).profiler_ = some 1 ∧
    (Launch profileBuild countingKernel ((KernelBase.fresh 0).SetProfiler (some 1) 0)).trace
      = [.PrepareForRun, .ReInitWhenNeeded, .AllocReset .Host, .AllocReset .X86, .Run] :=
  ⟨rfl, rfl⟩

/-- C5, amended: the timing calls are under `LITE_WITH_PROFILE` and `!is_kernel_test_`,
a guard that `Launch` reads afresh ahead of `Run`, on the object `k2` that
`ReInitWhenNeeded` left, and after `Run`, on the object `k3` that `Run` left.  A build
without `LITE_WITH_PROFILE` makes no timing call, and neither does a `Launch` that
reads the guard as false wherever it reads it.  A `Launch` in which the virtual methods
return, and which goes through no null `profiler_`, returns, and its calls are, in order:
`PrepareForRun` (with the first-epoch flag set), `ReInitWhenNeeded`, the arena resets,
with the guard true of `k2` `StopTiming(kCreate)` and `StartTiming(kDispatch)`, `Run`,
and with the guard true of `k3` `GetOpCharacter`, `SetProfileRuntimeKernelInfo` and
`StopTiming(kDispatch)`. -/
theorem C5_dispatch_timing {σ : Type} (cfg : BuildConfig) (vt : Methods σ)
    (k : KernelBase σ) :
    (cfg.LITE_WITH_PROFILE = false → ∀ t id c,
      Event.StartTiming t id c ∉ (Launch cfg vt k).trace ∧
      Event.StopTiming t id c ∉ (Launch cfg vt k).trace) ∧
    ((∀ k1 k2, firstEpochBlock vt k = .ok k1 → vt.ReInitWhenNeeded k1 = .ok k2 →
        profiled cfg k2 = false ∧ ∀ k3, vt.Run k2 = .ok k3 → profiled cfg k3 = false) →
      ∀ t id c,
        Event.StartTiming t id c ∉ (Launch cfg vt k).trace ∧
        Event.StopTiming t id c ∉ (Launch cfg vt k).trace) ∧
    (∀ k2 k3 k4, LaunchRan cfg vt k k2 k3 k4 →
      (profiled cfg k2 = true → k2.profiler_.isSome = true) →
      (profiled cfg k3 = true → k3.profiler_.isSome = true ∧ k4.profiler_.isSome = true) →
      (Launch cfg vt k).status = .returned ∧
      (Launch cfg vt k).kernel = k4 ∧
      (Launch cfg vt k).trace =
        (if k.is_first_epoch_ then [.PrepareForRun] else []) ++
        [.ReInitWhenNeeded, .AllocReset .Host] ++
        (if cfg.LITE_WITH_X86 then [.AllocReset .X86] else []) ++
        (if cfg.LITE_WITH_METAL then [.AllocReset .METAL] else []) ++
        (if profiled cfg k2 then
          [.StopTiming .kCreate k2.profile_id_ k2.ctx_,
           .StartTiming .kDispatch k2.profile_id_ k2.ctx_]
         else []) ++
        [.Run] ++
        (if profiled cfg k3 then
          [.GetOpCharacter k3.profile_id_,
           .SetProfileRuntimeKernelInfo,
           .StopTiming .kDispatch k4.profile_id_ k4.ctx_]
         else [])) := by
  refine ⟨fun h t id c => Launch_untimed cfg vt k
      (fun _ k2 _ _ => ⟨by simp [profiled, h], fun k3 _ => by simp [profiled, h]⟩) t id c,
    fun h t id c => Launch_untimed cfg vt k h t id c, ?_⟩
  intro k2 k3 k4 hran hs2 hs3
  obtain ⟨k1, hb, hr, hrun, h4⟩ := hran
  have hprof : profiled cfg k2 = false ∨ k2.profiler_.isSome = true := by
    cases h : profiled cfg k2 with
    | false => exact Or.inl rfl
    | true => exact Or.inr (hs2 h)
  rcases h4 with ⟨hp3, rfl⟩ | ⟨hp3, hinfo⟩
  · rw [Launch_of_run_plain cfg vt k k1 k2 k4 hb hr hprof hrun hp3]
    exact ⟨rfl, rfl, by simp [headTrace, resetTrace, hp3]⟩
  · rw [Launch_of_run_profiled cfg vt k k1 k2 k3 k4 hb hr hprof hrun hp3 (hs3 hp3).1 hinfo
      (hs3 hp3).2]
    exact ⟨rfl, rfl, by simp [headTrace, resetTrace, tailTrace, hp3]⟩

/-- Witness for C5, amended: an object with a profiler attached and `is_kernel_test_`
cleared, in a profiling build. -/
theorem C5_dispatch_timing_witness :
    (Launch profileBuild countingKernel
      (((KernelBase.fresh 0).SetProfiler (some 1) 0).SetIsKernelTest false)).trace =
      [.PrepareForRun, .ReInitWhenNeeded, .AllocReset .Host, .AllocReset .X86,
       .StopTiming .kCreate 0 none, .StartTiming .kDispatch 0 none, .Run,
       .GetOpCharacter 0, .SetProfileRuntimeKernelInfo, .StopTiming .kDispatch 0 none] :=
  ((C5_dispatch_timing profileBuild countingKernel
    (((KernelBase.fresh 0).SetProfiler (some 1) 0).SetIsKernelTest false)).2.2 _ _ _
    ⟨_, rfl, rfl, rfl, Or.inr ⟨rfl, rfl⟩⟩ (fun _ => rfl) (fun _ => ⟨rfl, rfl⟩)).2.2

/-! ## Theorems about `ShiftAlongDim` -/

theorem tmod_gt (a b : Int) (hb : 0 < b) : -b < Int.tmod a b := by
  obtain ⟨n, rfl⟩ := Int.eq_ofNat_of_zero_le hb.le
  cases a with
  | ofNat m =>
    have : 0 ≤ Int.tmod (Int.ofNat m) (n : Int) := Int.tmod_nonneg _ (Int.ofNat_nonneg m)
    omega
  | negSucc m =>
    show -(n : Int) < -((((m + 1) % n : Nat)) : Int)
    have : (m + 1) % n < n := Nat.mod_lt _ (by omega)
    omega

/-- The two statements that normalise `shift` compute the non-negative remainder. -/
theorem tmod_wrap (a b : Int) (hb : 0 < b) :
    (if Int.tmod a b < 0 then Int.tmod a b + b else Int.tmod a b) = a % b := by
  have h1 : Int.tmod a b < b := Int.tmod_lt_of_pos a hb
  have h2 : -b < Int.tmod a b := tmod_gt a b hb
  have h3 : a % b = (Int.tmod a b) % b := by
    conv_lhs => rw [← Int.tmod_add_tdiv a b]
    simp
  rw [h3]
  split
  · rw [← Int.add_emod_self, Int.emod_eq_of_lt (by omega) (by omega)]
  · rw [Int.emod_eq_of_lt (by omega) (by omega)]

/-- A loop of `m` passes, written over the pass number. -/
theorem forLoop_range {σ : Type} (lo hi : Int) (m : Nat) (h : (hi - lo).toNat = m)
    (body : Int → σ → σ) (s : σ) :
    forLoop lo hi body s = (List.range m).foldl (fun s (t : Nat) => body (lo + (t : Int)) s) s := by
  subst h; rfl

theorem foldl_range_succ {σ : Type} (f : σ → Nat → σ) (s : σ) (m : Nat) :
    (List.range (m + 1)).foldl f s = f ((List.range m).foldl f s) m := by
  rw [List.range_succ, List.foldl_append]; rfl

/-- A loop that fills `m` consecutive cells from values that it does not change. -/
theorem write_loop {T : Type} (m dst : Nat) (idx : Nat → Int) (v : Nat → T)
    (hidx : ∀ t, t < m → (idx t).toNat = dst + t) (d0 : Buffer T) :
    (List.range m).foldl (fun d t => Buffer.write d (idx t) (v t)) d0
      = fun x => if dst ≤ x ∧ x < dst + m then v (x - dst) else d0 x := by
  induction m with
  | zero =>
    funext x
    simp only [List.range_zero, List.foldl_nil]
    rw [if_neg (by omega)]
  | succ m ih =>
    rw [foldl_range_succ, ih (fun t ht => hidx t (by omega))]
    funext x
    simp only [Buffer.write, hidx m (by omega)]
    split_ifs <;> first | rfl | omega | (congr 1; omega)

/-- A loop that moves `m` consecutive cells towards the front, cell by cell. -/
theorem move_loop {T : Type} (m dst src : Nat) (hsd : dst ≤ src) (di si : Nat → Int)
    (hdi : ∀ t, t < m → (di t).toNat = dst + t)
    (hsi : ∀ t, t < m → (si t).toNat = src + t) (d0 : Buffer T) :
    (List.range m).foldl (fun d t => Buffer.write d (di t) (Buffer.read d (si t))) d0
      = fun x => if dst ≤ x ∧ x < dst + m then d0 (x - dst + src) else d0 x := by
  induction m with
  | zero =>
    funext x
    simp only [List.range_zero, List.foldl_nil]
    rw [if_neg (by omega)]
  | succ m ih =>
    rw [foldl_range_succ, ih (fun t ht => hdi t (by omega)) (fun t ht => hsi t (by omega))]
    funext x
    simp only [Buffer.write, Buffer.read, hdi m (by omega), hsi m (by omega)]
    split_ifs <;> first | rfl | omega | (congr 1; omega)

/-- The nested loop of `ShiftAlongDim`: `S` rows of `W` cells each, moved `H` cells
towards the front. -/
theorem rows_loop {T : Type} (S W dst H : Nat) (di si : Nat → Nat → Int)
    (hdi : ∀ r k, r < S → k < W → (di r k).toNat = dst + r * W + k)
    (hsi : ∀ r k, r < S → k < W → (si r k).toNat = dst + H + r * W + k) (d0 : Buffer T) :
    (List.range S).foldl (fun d r =>
        (List.range W).foldl (fun d k => Buffer.write d (di r k) (Buffer.read d (si r k))) d) d0
      = fun x => if dst ≤ x ∧ x < dst + S * W then d0 (x + H) else d0 x := by
  induction S with
  | zero =>
    funext x
    simp only [List.range_zero, List.foldl_nil]
    rw [if_neg (by omega)]
  | succ S ih =>
    rw [foldl_range_succ, ih (fun r k hr hk => hdi r k (by omega) hk)
      (fun r k hr hk => hsi r k (by omega) hk)]
    rw [move_loop W (dst + S * W) (dst + H + S * W) (by omega) _ _
      (fun t ht => by rw [hdi S t (by omega) ht])
      (fun t ht => by rw [hsi S t (by omega) ht])]
    funext x
    have e : (S + 1) * W = S * W + W := by ring
    rw [e]
    generalize S * W = P
    split_ifs <;> first | rfl | omega | (congr 1; omega)

theorem row_lt {j S W k : Nat} (hj : j < S) (hk : k < W) : j * W + k < S * W := by
  have : (j + 1) * W ≤ S * W := Nat.mul_le_mul_right W hj
  have e : (j + 1) * W = j * W + W := by ring
  omega

/-- One pass of the outer loop turns block `i` of `N` rows of `W` cells by `S` rows and
leaves the rest of the buffer as it was. -/
theorem pass_spec {T : Type} (N S W i : Nat) (hS : S < N) (st : Buffer T × Buffer T) :
    (ShiftAlongDim.pass (N : Int) (S : Int) (W : Int) ((W : Int) * ((N : Int) - (S : Int)))
        (i : Int) st).1
      = fun x =>
          if i * (N * W) ≤ x ∧ x < i * (N * W) + S * W then st.1 (x + (N - S) * W)
          else if i * (N * W) + S * W ≤ x ∧ x < i * (N * W) + N * W then st.1 (x - S * W)
          else st.1 x := by
  have hH : ∀ (σ : Type) (body : Int → σ → σ) (s : σ),
      forLoop 0 ((W : Int) * ((N : Int) - (S : Int))) body s
        = (List.range ((N - S) * W)).foldl (fun s (t : Nat) => body (0 + (t : Int)) s) s := by
    intro σ body s
    apply forLoop_range
    have : (W : Int) * ((N : Int) - (S : Int)) - 0 = (((N - S) * W : Nat) : Int) := by
      push_cast [Nat.cast_sub hS.le]; ring
    rw [this, Int.toNat_natCast]
  have hW : ∀ (σ : Type) (body : Int → σ → σ) (s : σ),
      forLoop 0 (W : Int) body s
        = (List.range W).foldl (fun s (t : Nat) => body (0 + (t : Int)) s) s := by
    intro σ body s
    apply forLoop_range
    simp
  have hR : ∀ (σ : Type) (body : Int → σ → σ) (s : σ),
      forLoop ((N : Int) - (S : Int)) (N : Int) body s
        = (List.range S).foldl (fun s (t : Nat) => body ((N : Int) - (S : Int) + (t : Int)) s) s := by
    intro σ body s
    apply forLoop_range
    have : (N : Int) - ((N : Int) - (S : Int)) = (S : Int) := by ring
    rw [this, Int.toNat_natCast]
  simp only [ShiftAlongDim.pass, hH, hW, hR]
  have hSW : S * W + (N - S) * W = N * W := by
    rw [← Nat.add_mul]; congr 1; omega
  rw [write_loop ((N - S) * W) 0 (fun t => 0 + (t : Int))
    (fun t => Buffer.read st.1 ((i : Int) * (N : Int) * (W : Int) + (0 + (t : Int))))
    (fun t _ => by simp) st.2]
  rw [rows_loop S W (i * (N * W)) ((N - S) * W)
    (fun r k => ((i : Int) * (N : Int) + ((N : Int) - (S : Int) + (r : Int) - (N : Int) + (S : Int)))
      * (W : Int) + (0 + (k : Int)))
    (fun r k => ((i : Int) * (N : Int) + ((N : Int) - (S : Int) + (r : Int)))
      * (W : Int) + (0 + (k : Int)))
    (fun r k _ _ => by
      have : ((i : Int) * (N : Int) + ((N : Int) - (S : Int) + (r : Int) - (N : Int) + (S : Int)))
          * (W : Int) + (0 + (k : Int)) = ((i * (N * W) + r * W + k : Nat) : Int) := by
        push_cast; ring
      beta_reduce
      rw [this, Int.toNat_natCast])
    (fun r k _ _ => by
      have : ((i : Int) * (N : Int) + ((N : Int) - (S : Int) + (r : Int)))
          * (W : Int) + (0 + (k : Int)) = ((i * (N * W) + (N - S) * W + r * W + k : Nat) : Int) := by
        push_cast [Nat.cast_sub hS.le]; ring
      beta_reduce
      rw [this, Int.toNat_natCast]) st.1]
  rw [write_loop ((N - S) * W) (i * (N * W) + S * W)
    (fun t => ((i : Int) * (N : Int) + (S : Int)) * (W : Int) + (0 + (t : Int))) _
    (fun t _ => by
      have : ((i : Int) * (N : Int) + (S : Int)) * (W : Int) + (0 + (t : Int))
          = ((i * (N * W) + S * W + t : Nat) : Int) := by
        push_cast; ring
      beta_reduce
      rw [this, Int.toNat_natCast])]
  funext x
  simp only [Buffer.read]
  have c1 : ∀ t : Nat, ((0 : Int) + (t : Int)).toNat = t := fun t => by simp
  have c2 : ∀ t : Nat, ((i : Int) * (N : Int) * (W : Int) + (0 + (t : Int))).toNat
      = i * (N * W) + t := fun t => by
    have : (i : Int) * (N : Int) * (W : Int) + (0 + (t : Int)) = ((i * (N * W) + t : Nat) : Int) := by
      push_cast; ring
    rw [this, Int.toNat_natCast]
  simp only [c1, c2]
  generalize i * (N * W) = base at *
  generalize S * W = SW at *
  generalize (N - S) * W = H at *
  generalize N * W = B at *
  by_cases h1 : base ≤ x ∧ x < base + SW
  · rw [if_neg (by omega), if_pos h1, if_pos h1]
  · by_cases h2 : base + SW ≤ x ∧ x < base + B
    · rw [if_pos (by omega), if_pos (by omega), if_neg h1, if_pos h2]
      exact congrArg st.1 (by omega)
    · rw [if_neg (by omega), if_neg h1, if_neg h1, if_neg h2]

/-- The outer loop turns each of the first `O` blocks and leaves the cells behind them. -/
theorem outer_loop {T : Type} (N S W : Nat) (hS : S < N) (data head : Buffer T) (O : Nat) :
    (∀ x, O * (N * W) ≤ x →
      ((List.range O).foldl (fun st (i : Nat) =>
        ShiftAlongDim.pass (N : Int) (S : Int) (W : Int) ((W : Int) * ((N : Int) - (S : Int)))
          (0 + (i : Int)) st) (data, head)).1 x = data x) ∧
    (∀ i, i < O → ∀ x, i * (N * W) ≤ x → x < i * (N * W) + N * W →
      ((List.range O).foldl (fun st (i : Nat) =>
        ShiftAlongDim.pass (N : Int) (S : Int) (W : Int) ((W : Int) * ((N : Int) - (S : Int)))
          (0 + (i : Int)) st) (data, head)).1 x
        = if x < i * (N * W) + S * W then data (x + (N - S) * W) else data (x - S * W)) := by
  have hSW : S * W + (N - S) * W = N * W := by
    rw [← Nat.add_mul]; congr 1; omega
  induction O with
  | zero =>
    refine ⟨fun x _ => rfl, fun i hi => absurd hi (by omega)⟩
  | succ O ih =>
    obtain ⟨ih1, ih2⟩ := ih
    rw [foldl_range_succ, zero_add, pass_spec N S W O hS]
    have eO : (O + 1) * (N * W) = O * (N * W) + N * W := by ring
    constructor
    · intro x hx
      beta_reduce
      rw [eO] at hx
      rw [if_neg (by omega), if_neg (by omega)]
      exact ih1 x (by omega)
    · intro i hi x hx1 hx2
      beta_reduce
      rcases Nat.lt_or_ge i O with hlt | hge
      · have hle : (i + 1) * (N * W) ≤ O * (N * W) := Nat.mul_le_mul_right _ hlt
        have e1 : (i + 1) * (N * W) = i * (N * W) + N * W := by ring
        rw [if_neg (by omega), if_neg (by omega)]
        exact ih2 i hlt x hx1 hx2
      · have hiO : i = O := by omega
        subst hiO
        by_cases h1 : x < i * (N * W) + S * W
        · rw [if_pos ⟨hx1, h1⟩, if_pos h1]
          exact ih1 _ (by omega)
        · rw [if_neg (by omega), if_pos (by omega), if_neg h1]
          exact ih1 _ (by omega)

theorem toInt32_of_small (v : Int) (h0 : 0 ≤ v) (h1 : v < 2147483648) : toInt32 v = v := by
  unfold toInt32; omega

theorem prod_pos_of_pos (l : List Int) (hpos : ∀ v ∈ l, 0 < v) : 0 < l.prod :=
  List.prod_pos hpos

/-- The product of a stretch of positive sizes is positive and at most the product of
all of them. -/
theorem sub_prod_bound (l : List Int) (hpos : ∀ v ∈ l, 0 < v) (lo m : Nat) :
    0 < ((l.drop lo).take m).prod ∧ ((l.drop lo).take m).prod ≤ l.prod := by
  have p1 : 0 < (l.take lo).prod :=
    prod_pos_of_pos _ (fun v hv => hpos v (List.mem_of_mem_take hv))
  have p2 : 0 < ((l.drop lo).take m).prod :=
    prod_pos_of_pos _ (fun v hv => hpos v (List.mem_of_mem_drop (List.mem_of_mem_take hv)))
  have p3 : 0 < ((l.drop lo).drop m).prod :=
    prod_pos_of_pos _ (fun v hv => hpos v (List.mem_of_mem_drop (List.mem_of_mem_drop hv)))
  have e1 : l.prod = (l.take lo).prod * (l.drop lo).prod := (List.prod_take_mul_prod_drop l lo).symm
  have e2 : (l.drop lo).prod = ((l.drop lo).take m).prod * ((l.drop lo).drop m).prod :=
    (List.prod_take_mul_prod_drop (l.drop lo) m).symm
  refine ⟨p2, ?_⟩
  rw [e1, e2]
  have h1 : ((l.drop lo).take m).prod ≤ ((l.drop lo).take m).prod * ((l.drop lo).drop m).prod :=
    le_mul_of_one_le_right p2.le (by omega)
  have h2 : ((l.drop lo).take m).prod * ((l.drop lo).drop m).prod
      ≤ (l.take lo).prod * (((l.drop lo).take m).prod * ((l.drop lo).drop m).prod) :=
    le_mul_of_one_le_left (mul_pos p2 p3).le (by omega)
  exact h1.trans h2

/-- The loops that multiply sizes into an `int` compute the product when the whole
shape has fewer than `2^31` elements. -/
theorem prod_loop (l : DDim) (hpos : ∀ v ∈ l, 0 < v) (hsize : l.prod < 2147483648)
    (lo m : Nat) (h : lo + m ≤ l.length) :
    (List.range m).foldl (fun acc (t : Nat) => toInt32 (acc * l.at ((lo : Int) + (t : Int)))) 1
      = ((l.drop lo).take m).prod := by
  induction m with
  | zero => simp
  | succ m ih =>
    rw [foldl_range_succ, ih (by omega)]
    have hlen : m < (l.drop lo).length := by rw [List.length_drop]; omega
    have hat : l.at ((lo : Int) + (m : Int)) = (l.drop lo)[m] := by
      have : ((lo : Int) + (m : Int)).toNat = lo + m := by omega
      rw [DDim.at, this, List.getD_eq_getElem?_getD, List.getElem_drop,
        List.getElem?_eq_getElem (by omega)]
      rfl
    rw [hat, ← List.prod_take_succ _ _ hlen]
    have hb := sub_prod_bound l hpos lo (m + 1)
    exact toInt32_of_small _ hb.1.le (by omega)

/-- The shape seen from axis `a`: the counts in front of and behind it, and its size,
as natural numbers whose product is the number of elements. -/
theorem shape_split (l : DDim) (hpos : ∀ v ∈ l, 0 < v) (a : Nat) (ha : a < l.length) :
    ∃ O N W : Nat, l.outer a = (O : Int) ∧ l.at (a : Int) = (N : Int) ∧
      l.inner a = (W : Int) ∧ 0 < O ∧ 0 < N ∧ 0 < W ∧ l.production = ((O * (N * W) : Nat) : Int) := by
  have pO : 0 < l.outer a :=
    prod_pos_of_pos _ (fun v hv => hpos v (List.mem_of_mem_take hv))
  have pW : 0 < l.inner a :=
    prod_pos_of_pos _ (fun v hv => hpos v (List.mem_of_mem_drop hv))
  have hat : l.at (a : Int) = l[a] := by
    rw [DDim.at, Int.toNat_natCast, List.getD_eq_getElem?_getD, List.getElem?_eq_getElem ha]
    rfl
  have pN : 0 < l.at (a : Int) := by
    rw [hat]; exact hpos _ (List.getElem_mem ha)
  have hprod : l.production = l.outer a * (l.at (a : Int) * l.inner a) := by
    rw [DDim.production, DDim.outer, DDim.inner, hat, ← List.prod_cons,
      ← List.drop_eq_getElem_cons ha, List.prod_take_mul_prod_drop]
  obtain ⟨O, hO⟩ := Int.eq_ofNat_of_zero_le pO.le
  obtain ⟨N, hN⟩ := Int.eq_ofNat_of_zero_le pN.le
  obtain ⟨W, hW⟩ := Int.eq_ofNat_of_zero_le pW.le
  refine ⟨O, N, W, hO, hN, hW, by omega, by omega, by omega, ?_⟩
  rw [hprod, hO, hN, hW]
  push_cast
  rfl

/-- On a shape of positive sizes with fewer than `2^31` elements, `ShiftAlongDim`
returns the buffer rolled along the axis, and writes no cell behind the elements. -/
theorem ShiftAlongDim_rolls {T : Type} [Inhabited T] (data : Buffer T) (input_dim : DDim)
    (dim shift : Int) (hpos : ∀ v ∈ input_dim, 0 < v)
    (hdim : -(input_dim.length : Int) ≤ dim ∧ dim < input_dim.length)
    (hsize : input_dim.production < 2147483648) :
    ∃ out, ShiftAlongDim data input_dim dim shift = some out ∧
      (∀ x : Nat, input_dim.production ≤ (x : Int) → out x = data x) ∧
      IsRoll input_dim dim shift data out := by
  -- the axis
  obtain ⟨a, ha⟩ : ∃ a : Nat, (if dim < 0 then dim + input_dim.length else dim) = (a : Int) :=
    Int.eq_ofNat_of_zero_le (by split <;> omega)
  have haxis : input_dim.axis dim = a := by rw [DDim.axis, ha, Int.toNat_natCast]
  have halt : a < input_dim.length := by
    have : (a : Int) < input_dim.length := by rw [← ha]; split <;> omega
    omega
  -- the shape around it
  obtain ⟨O, N, W, hO, hN, hW, pO, pN, pW, hprod⟩ := shape_split input_dim hpos a halt
  have hsize' : O * (N * W) < 2147483648 := by
    have := hsize; rw [hprod] at this; omega
  -- the normalised shift
  obtain ⟨S, hS⟩ : ∃ S : Nat, shift % (N : Int) = (S : Int) :=
    Int.eq_ofNat_of_zero_le (Int.emod_nonneg _ (by omega))
  have hSN : S < N := by
    have := Int.emod_lt_of_pos shift (show (0 : Int) < N by omega)
    omega
  -- the two products
  have hOuter : forLoop 0 (a : Int) (fun i acc => toInt32 (acc * input_dim.at i)) 1 = (O : Int) := by
    rw [forLoop_range 0 (a : Int) a (by simp)]
    have := prod_loop input_dim hpos hsize 0 a (by omega)
    simp only [Nat.cast_zero, List.drop_zero] at this
    rw [this, ← hO, DDim.outer]
  have hInner : forLoop ((a : Int) + 1) (input_dim.length : Int)
      (fun i acc => toInt32 (acc * input_dim.at i)) 1 = (W : Int) := by
    rw [forLoop_range ((a : Int) + 1) (input_dim.length : Int) (input_dim.length - (a + 1))
      (by omega)]
    have := prod_loop input_dim hpos hsize (a + 1) (input_dim.length - (a + 1)) (by omega)
    simp only [Nat.cast_add, Nat.cast_one] at this
    rw [this, ← hW, DDim.inner, List.take_of_length_le (by rw [List.length_drop])]
  -- the offsets of the statement
  have hoff : ∀ o j k : Nat, input_dim.offset a (o : Int) (j : Int) (k : Int)
      = o * (N * W) + j * W + k := by
    intro o j k
    have : ((o : Int) * (N : Int) + (j : Int)) * (W : Int) + (k : Int)
        = ((o * (N * W) + j * W + k : Nat) : Int) := by push_cast; ring
    rw [DDim.offset, hN, hW, this, Int.toNat_natCast]
  have hSW : S * W + (N - S) * W = N * W := by
    rw [← Nat.add_mul]; congr 1; omega
  -- the body
  simp only [ShiftAlongDim, ha, hN, tmod_wrap shift (N : Int) (by omega), hS, hOuter, hInner]
  rw [if_neg (by omega), if_neg (by omega)]
  by_cases hS0 : S = 0
  · subst hS0
    rw [if_pos (by simp)]
    refine ⟨data, rfl, fun x _ => rfl, ?_⟩
    intro o j k _ hj _
    rw [haxis, hN] at hj ⊢
    have : ((j : Int) + shift) % (N : Int) = (j : Int) := by
      rw [Int.add_emod, hS, Nat.cast_zero, add_zero, Int.emod_emod_of_dvd _ (dvd_refl _)]
      exact Int.emod_eq_of_lt (by omega) hj
    rw [this]
  · have hH : (W : Int) * ((N : Int) - (S : Int)) = (((N - S) * W : Nat) : Int) := by
      push_cast [Nat.cast_sub hSN.le]; ring
    have hHle : (N - S) * W ≤ O * (N * W) := by
      have h1 : (N - S) * W ≤ N * W := Nat.mul_le_mul_right W (Nat.sub_le N S)
      have h2 : 1 * (N * W) ≤ O * (N * W) := Nat.mul_le_mul_right _ pO
      omega
    rw [if_neg (by omega), if_neg (by rw [hH]; omega), if_neg (by rw [hH]; omega)]
    refine ⟨_, rfl, ?_, ?_⟩
    · intro x hx
      rw [forLoop_range 0 (O : Int) O (by simp)]
      exact (outer_loop N S W hSN data _ O).1 x (by rw [hprod] at hx; omega)
    · intro o j k ho hj hk
      rw [haxis] at ho hj hk ⊢
      rw [hN] at hj ⊢
      rw [hO] at ho
      rw [hW] at hk
      have ho' : o < O := by omega
      have hj' : j < N := by omega
      have hk' : k < W := by omega
      obtain ⟨j', hj'e⟩ : ∃ j' : Nat, ((j : Int) + shift) % (N : Int) = (j' : Int) :=
        Int.eq_ofNat_of_zero_le (Int.emod_nonneg _ (by omega))
      have hj'S : j' = (j + S) % N := by
        have : ((j : Int) + shift) % (N : Int) = (((j + S) % N : Nat) : Int) := by
          rw [Int.add_emod, hS]
          push_cast
          rw [Int.emod_eq_of_lt (show (0 : Int) ≤ (j : Int) by omega) hj]
        omega
      rw [hj'e, hoff, hoff, forLoop_range 0 (O : Int) O (by simp)]
      have hj'N : j' < N := by rw [hj'S]; exact Nat.mod_lt _ pN
      have hb1 : o * (N * W) ≤ o * (N * W) + j' * W + k := by omega
      have hb2 : o * (N * W) + j' * W + k < o * (N * W) + N * W := by
        have := row_lt (W := W) hj'N hk'
        omega
      rw [(outer_loop N S W hSN data _ O).2 o ho' _ hb1 hb2]
      rcases Nat.lt_or_ge (j + S) N with hlt | hge
      · have e : j' = j + S := by rw [hj'S, Nat.mod_eq_of_lt hlt]
        subst e
        have e2 : (j + S) * W = j * W + S * W := by ring
        rw [if_neg (by omega)]
        exact congrArg data (by omega)
      · have e : j' = j + S - N := by
          rw [hj'S, Nat.mod_eq_sub_mod hge, Nat.mod_eq_of_lt (by omega)]
        subst e
        have e2 : (j + S - N) * W + (N - S) * W = j * W := by
          rw [← Nat.add_mul]; congr 1; omega
        have e3 := row_lt (W := W) (show j + S - N < S by omega) hk'
        rw [if_pos (by omega)]
        exact congrArg data (by omega)

/-- C8, as stated, fails: on the shape `(2^31, 2)` the count of outer passes, kept in an
`int`, becomes `-2^31`; no pass is made and the buffer is returned as it was, so the
value of index `(0, 0)` is not at index `(0, 1)` after a shift by `1` along axis `1`. -/
theorem C8_shift_along_dim_counterexample :
    ¬ ∃ out, ShiftAlongDim iota [2147483648, 2] 1 1 = some out ∧
      IsRoll [2147483648, 2] 1 1 iota out := by
  have h : ShiftAlongDim iota [2147483648, 2] 1 1 = some iota := rfl
  rintro ⟨out, h1, h2⟩
  rw [h] at h1
  injection h1 with h1
  subst h1
  have h3 := h2 0 0 0 (by decide) (by decide) (by decide)
  revert h3
  decide

/-- C8, amended: for every shape of positive sizes with fewer than `2^31` elements,
every buffer, every axis `dim` with `-rank ≤ dim < rank` and every shift,
`ShiftAlongDim` returns, and the buffer it leaves holds at index
`(o, (j + shift) mod n, k)` the value that was at index `(o, j, k)`. -/
theorem C8_shift_along_dim_rolls {T : Type} [Inhabited T] (data : Buffer T)
    (input_dim : DDim) (dim shift : Int) (hpos : ∀ v ∈ input_dim, 0 < v)
    (hdim : -(input_dim.length : Int) ≤ dim ∧ dim < input_dim.length)
    (hsize : input_dim.production < 2147483648) :
    ∃ out, ShiftAlongDim data input_dim dim shift = some out ∧
      IsRoll input_dim dim shift data out := by
  obtain ⟨out, h1, _, h2⟩ := ShiftAlongDim_rolls data input_dim dim shift hpos hdim hsize
  exact ⟨out, h1, h2⟩

/-- Witness for C8, amended: the shape `(2, 3, 4)`, the last axis, a shift by `-5`. -/
theorem C8_shift_along_dim_rolls_witness :
    ∃ out, ShiftAlongDim iota [2, 3, 4] (-1) (-5) = some out ∧
      IsRoll [2, 3, 4] (-1) (-5) iota out :=
  C8_shift_along_dim_rolls iota [2, 3, 4] (-1) (-5) (by decide) (by decide) (by decide)

/-- C9 at the failing input: on a tensor of shape `(2, 3)` holding `0..5`, with no axis
and the shift `1`, `RunBaseline` rolls the first two cells only, two being the rank that
it takes for the size: the output is `1, 0, 2, 3, 4, 5`, where rolling all six elements
gives `5, 0, 1, 2, 3, 4`. -/
theorem C9_empty_axis_at_failing_input :
    ((RollComputeTester.new [2, 3] [] [1] false).RunBaseline
        ((RollComputeTester.new [2, 3] [] [1] false).PrepareData iota)).map
      (fun r => r.2.data.firstCells 6) = some [1, 0, 2, 3, 4, 5] ∧
    (ShiftAlongDim iota [6] 0 1).map (fun out => out.firstCells 6)
      = some [5, 0, 1, 2, 3, 4] := by
  decide

/-- C10 at the failing input: a tester with axis `0`, the shifts attribute `1` and a
shifts tensor.  `PrepareData` fills the tensor from `axis_`, so it holds `0`;
`RunBaseline` takes the count of shifts from the tensor and the shift itself from the
attribute: the output on `0, 1, 2` is `2, 0, 1`, where the shift `0` of the tensor
leaves `0, 1, 2`. -/
theorem C10_shifts_tensor_at_failing_input :
    (((RollComputeTester.new [3] [0] [1] true).PrepareData iota).ShiftsTensor.map
      (fun t => t.data.firstCells 1)) = some [0] ∧
    ((RollComputeTester.new [3] [0] [1] true).RunBaseline
        ((RollComputeTester.new [3] [0] [1] true).PrepareData iota)).map
      (fun r => r.2.data.firstCells 3) = some [2, 0, 1] ∧
    (ShiftAlongDim iota [3] 0 0).map (fun out => out.firstCells 3) = some [0, 1, 2] := by
  decide

/-! ## Theorems about the kernel identity string -/

theorem splitSlash_single (a : List Char) (h : '/' ∉ a) : splitSlash a = [a] := by
  induction a with
  | nil => rfl
  | cons c cs ih =>
    have hc : c ≠ '/' := fun e => h (by simp [e])
    have hcs : '/' ∉ cs := fun e => h (List.mem_cons_of_mem _ e)
    simp [splitSlash, hc, ih hcs]

theorem splitSlash_append (a rest : List Char) (h : '/' ∉ a) :
    splitSlash (a ++ '/' :: rest) = a :: splitSlash rest := by
  induction a with
  | nil => simp [splitSlash]
  | cons c cs ih =>
    have hc : c ≠ '/' := fun e => h (by simp [e])
    have hcs : '/' ∉ cs := fun e => h (List.mem_cons_of_mem _ e)
    simp [splitSlash, hc, ih hcs]

theorem decodeDigit_digitChar (d : Nat) (h : d < 10) :
    decodeDigit (Nat.digitChar d) = some d := by
  interval_cases d <;> rfl

theorem digitChar_ne_slash (d : Nat) (h : d < 10) : Nat.digitChar d ≠ '/' := by
  interval_cases d <;> decide

theorem foldlM_digits (M : List Nat) (hM : ∀ d ∈ M, d < 10) (acc : Nat) :
    (M.map Nat.digitChar).foldlM
        (fun acc c => (decodeDigit c).map (fun d => 10 * acc + d)) acc
      = some (M.foldl (fun a d => 10 * a + d) acc) := by
  induction M generalizing acc with
  | nil => rfl
  | cons d ds ih =>
    have hd : d < 10 := hM d (by simp)
    simp only [List.map_cons, List.foldlM_cons, decodeDigit_digitChar d hd, Option.map_some',
      Option.bind_eq_bind, Option.some_bind, List.foldl_cons]
    exact ih (fun x hx => hM x (List.mem_cons_of_mem _ hx)) _

/-- Decoding undoes the encoding of an enumeration value. -/
theorem decodeEnum_encodeEnum (n : Nat) : decodeEnum (encodeEnum n) = some n := by
  by_cases h0 : n = 0
  · subst h0; rfl
  · have hne : Nat.digits 10 n ≠ [] := Nat.digits_ne_nil_iff_ne_zero.mpr h0
    have hlt : ∀ d ∈ (Nat.digits 10 n).reverse, d < 10 := fun d hd =>
      Nat.digits_lt_base (by norm_num) (List.mem_reverse.mp hd)
    unfold decodeEnum encodeEnum
    rw [if_neg h0, if_neg (by simpa using hne), foldlM_digits _ hlt, List.foldl_reverse]
    congr 1
    have := Nat.ofDigits_digits 10 n
    rw [Nat.ofDigits_eq_foldr] at this
    simpa [mul_comm, add_comm] using this

/-- The encoding of an enumeration value has no delimiter in it. -/
theorem encodeEnum_no_slash (n : Nat) : '/' ∉ encodeEnum n := by
  unfold encodeEnum
  split
  · decide
  · intro h
    obtain ⟨d, hd, he⟩ := List.mem_map.mp h
    exact digitChar_ne_slash d (Nat.digits_lt_base (by norm_num) (List.mem_reverse.mp hd)) he

/-- The round trip, for an operator type and an alias without the delimiter. -/
theorem ParseKernelType_Serialize (op_type alias_ : String) (place : Place)
    (h1 : '/' ∉ op_type.toList) (h2 : '/' ∉ alias_.toList) :
    ParseKernelType (SerializeKernelType op_type alias_ place)
      = some (op_type, alias_, place) := by
  have e : (SerializeKernelType op_type alias_ place).toList
      = op_type.toList ++ '/' :: (alias_.toList ++ '/' :: (encodeEnum place.target ++
          '/' :: (encodeEnum place.precision ++ '/' :: encodeEnum place.layout))) := by
    simp [SerializeKernelType, String.toList]
  unfold ParseKernelType
  rw [e, splitSlash_append _ _ h1, splitSlash_append _ _ h2,
    splitSlash_append _ _ (encodeEnum_no_slash _), splitSlash_append _ _ (encodeEnum_no_slash _),
    splitSlash_single _ (encodeEnum_no_slash _)]
  simp only [decodeEnum_encodeEnum]
  rfl

/-- C6: for an operator type and an alias that do not contain the delimiter `/`, and
every `Place`, `ParseKernelType` applied to `SerializeKernelType(op_type, alias, place)`
gives back exactly `op_type`, `alias` and `place`; so parsing the
`SerializedKernelType()` of a kernel with that operator type and alias recovers
`(op_type(), alias(), place())`. -/
theorem C6_kernel_type_roundtrip (op_type alias_ : String) (place : Place)
    (h1 : '/' ∉ op_type.toList) (h2 : '/' ∉ alias_.toList) :
    ParseKernelType (SerializeKernelType op_type alias_ place)
      = some (op_type, alias_, place) ∧
    ∀ (σ : Type) (k : KernelBase σ), k.op_type_ = op_type → k.alias_ = alias_ →
      ParseKernelType (k.SerializedKernelType place) = some (k.op_type_, k.alias_, place) := by
  refine ⟨ParseKernelType_Serialize op_type alias_ place h1 h2, ?_⟩
  intro σ k ho ha
  rw [KernelBase.SerializedKernelType, ho, ha]
  exact ParseKernelType_Serialize op_type alias_ place h1 h2

/-- Witness for C6: the identity of a `conv2d` kernel with the alias `def`. -/
theorem C6_kernel_type_roundtrip_witness :
    ParseKernelType (SerializeKernelType "conv2d" "def" { target := 4, precision := 1, layout := 1 })
      = some ("conv2d", "def", { target := 4, precision := 1, layout := 1 }) :=
  (C6_kernel_type_roundtrip "conv2d" "def" { target := 4, precision := 1, layout := 1 }
    (by decide) (by decide)).1

/-! ## Theorems about composed rolls -/

/-- A roll by `s` followed by a roll by `t` is a roll by `s + t`. -/
theorem IsRoll_comp {T : Type} (input_dim : DDim) (dim s t : Int) (data mid out : Buffer T)
    (hn : 0 < input_dim.at (input_dim.axis dim))
    (h1 : IsRoll input_dim dim s data mid) (h2 : IsRoll input_dim dim t mid out) :
    IsRoll input_dim dim (s + t) data out := by
  intro o j k ho hj hk
  obtain ⟨j', hj'⟩ : ∃ j' : Nat,
      ((j : Int) + s) % input_dim.at (input_dim.axis dim) = (j' : Int) :=
    Int.eq_ofNat_of_zero_le (Int.emod_nonneg _ (by omega))
  have hj'lt : (j' : Int) < input_dim.at (input_dim.axis dim) := by
    rw [← hj']; exact Int.emod_lt_of_pos _ hn
  have e : ((j : Int) + (s + t)) % input_dim.at (input_dim.axis dim)
      = ((j' : Int) + t) % input_dim.at (input_dim.axis dim) := by
    rw [← hj', Int.emod_add_emod, add_assoc]
  rw [e, h2 o j' k ho hj'lt hk, ← hj', h1 o j k ho hj hk]

/-- A roll by a multiple of the size of the axis leaves every element where it is. -/
theorem IsRoll_multiple {T : Type} (input_dim : DDim) (dim m : Int) (data : Buffer T) :
    IsRoll input_dim dim (m * input_dim.at (input_dim.axis dim)) data data := by
  intro o j k _ hj _
  have : ((j : Int) + m * input_dim.at (input_dim.axis dim)) % input_dim.at (input_dim.axis dim)
      = (j : Int) := by
    rw [Int.add_mul_emod_self]
    exact Int.emod_eq_of_lt (by omega) hj
  rw [this]

/-- On a shape of positive sizes, a buffer is fixed by what it is a roll of, by the
shift, and by its cells behind the elements. -/
theorem IsRoll_unique {T : Type} (input_dim : DDim) (dim s : Int) (data out1 out2 : Buffer T)
    (hpos : ∀ v ∈ input_dim, 0 < v)
    (hdim : -(input_dim.length : Int) ≤ dim ∧ dim < input_dim.length)
    (f1 : ∀ x : Nat, input_dim.production ≤ (x : Int) → out1 x = data x)
    (f2 : ∀ x : Nat, input_dim.production ≤ (x : Int) → out2 x = data x)
    (r1 : IsRoll input_dim dim s data out1) (r2 : IsRoll input_dim dim s data out2) :
    out1 = out2 := by
  obtain ⟨a, ha⟩ : ∃ a : Nat, (if dim < 0 then dim + input_dim.length else dim) = (a : Int) :=
    Int.eq_ofNat_of_zero_le (by split <;> omega)
  have haxis : input_dim.axis dim = a := by rw [DDim.axis, ha, Int.toNat_natCast]
  have halt : a < input_dim.length := by
    have : (a : Int) < input_dim.length := by rw [← ha]; split <;> omega
    omega
  obtain ⟨O, N, W, hO, hN, hW, pO, pN, pW, hprod⟩ := shape_split input_dim hpos a halt
  have hoff : ∀ o j k : Nat, input_dim.offset a (o : Int) (j : Int) (k : Int)
      = o * (N * W) + j * W + k := by
    intro o j k
    have : ((o : Int) * (N : Int) + (j : Int)) * (W : Int) + (k : Int)
        = ((o * (N * W) + j * W + k : Nat) : Int) := by push_cast; ring
    rw [DDim.offset, hN, hW, this, Int.toNat_natCast]
  simp only [IsRoll, haxis, hN, hO, hW] at r1 r2
  funext x
  rcases Nat.lt_or_ge x (O * (N * W)) with hx | hx
  · -- the index of cell `x`
    obtain ⟨o, j', k, ho, hj', hk, hx'⟩ :
        ∃ o j' k : Nat, o < O ∧ j' < N ∧ k < W ∧ x = o * (N * W) + j' * W + k := by
      have pNW : 0 < N * W := Nat.mul_pos pN pW
      refine ⟨x / (N * W), x % (N * W) / W, x % (N * W) % W,
        (Nat.div_lt_iff_lt_mul pNW).mpr hx,
        (Nat.div_lt_iff_lt_mul pW).mpr (Nat.mod_lt x pNW), Nat.mod_lt _ pW, ?_⟩
      have hdm : N * W * (x / (N * W)) + x % (N * W) = x := Nat.div_add_mod x (N * W)
      have hdm2 : W * (x % (N * W) / W) + x % (N * W) % W = x % (N * W) :=
        Nat.div_add_mod (x % (N * W)) W
      have e1 : N * W * (x / (N * W)) = x / (N * W) * (N * W) := Nat.mul_comm _ _
      have e2 : W * (x % (N * W) / W) = x % (N * W) / W * W := Nat.mul_comm _ _
      omega
    -- the index that the roll brings there
    obtain ⟨j, hj⟩ : ∃ j : Nat, ((j' : Int) - s) % (N : Int) = (j : Int) :=
      Int.eq_ofNat_of_zero_le (Int.emod_nonneg _ (by omega))
    have hjlt : (j : Int) < (N : Int) := by
      rw [← hj]; exact Int.emod_lt_of_pos _ (by omega)
    have hback : ((j : Int) + s) % (N : Int) = (j' : Int) := by
      rw [← hj, Int.emod_add_emod, sub_add_cancel]
      exact Int.emod_eq_of_lt (by omega) (by omega)
    have q1 := r1 o j k (by omega) hjlt (by omega)
    have q2 := r2 o j k (by omega) hjlt (by omega)
    rw [hback, hoff, hoff, ← hx'] at q1 q2
    rw [q1, q2]
  · have hx' : input_dim.production ≤ (x : Int) := by rw [hprod]; omega
    rw [f1 x hx', f2 x hx']

/-- The size of a valid axis of a shape of positive sizes is positive. -/
theorem axis_size_pos (input_dim : DDim) (dim : Int) (hpos : ∀ v ∈ input_dim, 0 < v)
    (hdim : -(input_dim.length : Int) ≤ dim ∧ dim < input_dim.length) :
    0 < input_dim.at (input_dim.axis dim) := by
  obtain ⟨a, ha⟩ : ∃ a : Nat, (if dim < 0 then dim + input_dim.length else dim) = (a : Int) :=
    Int.eq_ofNat_of_zero_le (by split <;> omega)
  have haxis : input_dim.axis dim = a := by rw [DDim.axis, ha, Int.toNat_natCast]
  have halt : a < input_dim.length := by
    have : (a : Int) < input_dim.length := by rw [← ha]; split <;> omega
    omega
  obtain ⟨O, N, W, hO, hN, hW, pO, pN, pW, hprod⟩ := shape_split input_dim hpos a halt
  rw [haxis, hN]; omega

/-- Below `2^31` elements, two calls of `ShiftAlongDim` along one axis leave the buffer
that one call with the sum of the shifts leaves. -/
theorem ShiftAlongDim_compose {T : Type} [Inhabited T] (data : Buffer T) (input_dim : DDim)
    (dim s t : Int) (hpos : ∀ v ∈ input_dim, 0 < v)
    (hdim : -(input_dim.length : Int) ≤ dim ∧ dim < input_dim.length)
    (hsize : input_dim.production < 2147483648) :
    ∃ mid out, ShiftAlongDim data input_dim dim s = some mid ∧
      ShiftAlongDim mid input_dim dim t = some out ∧
      ShiftAlongDim data input_dim dim (s + t) = some out := by
  obtain ⟨mid, e1, f1, r1⟩ := ShiftAlongDim_rolls data input_dim dim s hpos hdim hsize
  obtain ⟨out, e2, f2, r2⟩ := ShiftAlongDim_rolls mid input_dim dim t hpos hdim hsize
  obtain ⟨one, e3, f3, r3⟩ := ShiftAlongDim_rolls data input_dim dim (s + t) hpos hdim hsize
  have hn := axis_size_pos input_dim dim hpos hdim
  have hu : out = one :=
    IsRoll_unique input_dim dim (s + t) data out one hpos hdim
      (fun x hx => by rw [f2 x hx, f1 x hx]) f3
      (IsRoll_comp input_dim dim s t data mid out hn r1 r2) r3
  exact ⟨mid, out, e1, e2, by rw [e3, hu]⟩

/-- Below `2^31` elements, a shift by a multiple of the size of the axis leaves the
buffer as it was. -/
theorem ShiftAlongDim_multiple {T : Type} [Inhabited T] (data : Buffer T) (input_dim : DDim)
    (dim m : Int) (hpos : ∀ v ∈ input_dim, 0 < v)
    (hdim : -(input_dim.length : Int) ≤ dim ∧ dim < input_dim.length)
    (hsize : input_dim.production < 2147483648) :
    ShiftAlongDim data input_dim dim (m * input_dim.at (input_dim.axis dim)) = some data := by
  obtain ⟨out, e, f, r⟩ := ShiftAlongDim_rolls data input_dim dim
    (m * input_dim.at (input_dim.axis dim)) hpos hdim hsize
  have hu : out = data :=
    IsRoll_unique input_dim dim (m * input_dim.at (input_dim.axis dim)) data out data hpos hdim
      f (fun _ _ => rfl) r (IsRoll_multiple input_dim dim m data)
  rw [e, hu]

/-- C11, as stated, fails: on the shape `(2, 2^31)` the width of a slice, kept in an
`int`, becomes `-2^31`; a shift by `1` along axis `0` then asks `head.resize` for a
negative count and leaves no buffer, while the single shift by `1 + (-1)` returns the
buffer as it was. -/
theorem C11_roll_composition_counterexample :
    ShiftAlongDim iota [2, 2147483648] 0 (1 + -1) = some iota ∧
    ¬ ∃ mid out, ShiftAlongDim iota [2, 2147483648] 0 1 = some mid ∧
      ShiftAlongDim mid [2, 2147483648] 0 (-1) = some out ∧
      ShiftAlongDim iota [2, 2147483648] 0 (1 + -1) = some out := by
  have h : ShiftAlongDim iota [2, 2147483648] 0 1 = none := rfl
  refine ⟨rfl, ?_⟩
  rintro ⟨mid, out, h1, _⟩
  rw [h] at h1
  cases h1

/-- C11, amended: for every shape of positive sizes with fewer than `2^31` elements,
every buffer, every axis `dim` with `-rank ≤ dim < rank` and all shifts `s` and `t`,
`ShiftAlongDim` with `s` and then with `t` leaves the buffer that a single
`ShiftAlongDim` with `s + t` leaves; a shift by `s` and then by `-s` restores the
buffer, and a shift by a multiple of the size of the axis changes nothing. -/
theorem C11_roll_composition {T : Type} [Inhabited T] (data : Buffer T) (input_dim : DDim)
    (dim s t : Int) (hpos : ∀ v ∈ input_dim, 0 < v)
    (hdim : -(input_dim.length : Int) ≤ dim ∧ dim < input_dim.length)
    (hsize : input_dim.production < 2147483648) :
    (∃ mid out, ShiftAlongDim data input_dim dim s = some mid ∧
      ShiftAlongDim mid input_dim dim t = some out ∧
      ShiftAlongDim data input_dim dim (s + t) = some out) ∧
    (∃ mid, ShiftAlongDim data input_dim dim s = some mid ∧
      ShiftAlongDim mid input_dim dim (-s) = some data) ∧
    (∀ m : Int,
      ShiftAlongDim data input_dim dim (m * input_dim.at (input_dim.axis dim)) = some data) := by
  refine ⟨ShiftAlongDim_compose data input_dim dim s t hpos hdim hsize, ?_,
    fun m => ShiftAlongDim_multiple data input_dim dim m hpos hdim hsize⟩
  obtain ⟨mid, out, e1, e2, e3⟩ := ShiftAlongDim_compose data input_dim dim s (-s) hpos hdim hsize
  have e0 := ShiftAlongDim_multiple data input_dim dim 0 hpos hdim hsize
  rw [zero_mul] at e0
  rw [add_neg_cancel, e0] at e3
  exact ⟨mid, e1, by rw [e2, ← e3]⟩

/-- Witness for C11, amended: the shape `(2, 3, 4)`, the middle axis, shifts by `2` and
by `-7`. -/
theorem C11_roll_composition_witness :
    ∃ mid out, ShiftAlongDim iota [2, 3, 4] 1 2 = some mid ∧
      ShiftAlongDim mid [2, 3, 4] 1 (-7) = some out ∧
      ShiftAlongDim iota [2, 3, 4] 1 (2 + -7) = some out :=
  (C11_roll_composition iota [2, 3, 4] 1 2 (-7) (by decide) (by decide) (by decide)).1

/-! ## Theorems about `key_with_alias` -/

/-- Two strings cut at the first delimiter: with no delimiter in front of it, equal wholes
have equal parts. -/
theorem slash_split_inj (a b x y : List Char) (ha : '/' ∉ a) (hb : '/' ∉ b)
    (h : a ++ '/' :: x = b ++ '/' :: y) : a = b ∧ x = y := by
  have h1 : splitSlash (a ++ '/' :: x) = splitSlash (b ++ '/' :: y) := by rw [h]
  rw [splitSlash_append a x ha, splitSlash_append b y hb] at h1
  have hab : a = b := (List.cons.inj h1).1
  subst hab
  exact ⟨rfl, (List.cons.inj (List.append_cancel_left h)).2⟩

/-- C12: `key_with_alias()` is `op_type()`, then `/`, then `alias()`; and for two
kernels whose operator types contain no `/`, equal keys give equal operator types and
equal aliases. -/
theorem C12_key_with_alias_identifies {σ τ : Type} (k1 : KernelBase σ) (k2 : KernelBase τ)
    (h1 : '/' ∉ k1.op_type_.toList) (h2 : '/' ∉ k2.op_type_.toList) :
    k1.key_with_alias = k1.op_type_ ++ "/" ++ k1.alias_ ∧
    (k1.key_with_alias = k2.key_with_alias →
      k1.op_type_ = k2.op_type_ ∧ k1.alias_ = k2.alias_) := by
  refine ⟨rfl, fun h => ?_⟩
  have hl : k1.op_type_.toList ++ '/' :: k1.alias_.toList
      = k2.op_type_.toList ++ '/' :: k2.alias_.toList := by
    have := congrArg String.toList h
    simpa [KernelBase.key_with_alias, String.toList] using this
  obtain ⟨e1, e2⟩ := slash_split_inj _ _ _ _ h1 h2 hl
  exact ⟨String.ext e1, String.ext e2⟩

/-- Witness for C12: a `conv2d` kernel with the alias `def`, against itself. -/
theorem C12_key_with_alias_identifies_witness :
    (((KernelBase.fresh 0).set_op_type "conv2d").set_alias "def").key_with_alias
      = "conv2d" ++ "/" ++ "def" :=
  (C12_key_with_alias_identifies (((KernelBase.fresh 0).set_op_type "conv2d").set_alias "def")
    (((KernelBase.fresh 0).set_op_type "conv2d").set_alias "def") (by decide) (by decide)).1

end paddle.lite
